import Mathlib

/-!
# tinyvm: an LC-3 emulator (`src/tiny.c`)

A shallow embedding of the emulator's data model and execution engine, and
theorems about it.

Conventions of the embedding.

* A `uint16_t` is a `Nat`; every store into a `uint16_t` object reduces the
  stored value modulo `2 ^ 16` explicitly.  A state is *well formed* (`WF`)
  when every memory word and every register is below `2 ^ 16` and every
  pending input byte is below `2 ^ 8`.
* `memory` and `reg` are the two global arrays, as functions of the index.
  `reg` has `R_COUNT = 10` slots: `R0..R7`, `PC` (index 8), `COND` (index 9).
* Standard input is the list of bytes still to be read; `getchar` on the empty
  list returns `EOF = -1`.  Standard output is the list of bytes written so far.
* `check_key` (a zero-timeout `select`) is answered by the host: `keys` is the
  stream of answers the host will give to the successive polls.
* The signedness of plain `char` is implementation-defined in C; it is the
  parameter `sc` (`true`: `char` is signed, as on x86) of `step`.
* The host is little-endian, which is what `read_image_file` assumes.
-/

namespace TinyVM

/-! ## Constants -/

abbrev MEMORY_MAX : Nat := 1 <<< 16

abbrev R_R0 : Nat := 0
abbrev R_R1 : Nat := 1
abbrev R_R2 : Nat := 2
abbrev R_R3 : Nat := 3
abbrev R_R4 : Nat := 4
abbrev R_R5 : Nat := 5
abbrev R_R6 : Nat := 6
abbrev R_R7 : Nat := 7
abbrev R_PC : Nat := 8
abbrev R_COND : Nat := 9
abbrev R_COUNT : Nat := 10

abbrev OP_BR : Nat := 0
abbrev OP_ADD : Nat := 1
abbrev OP_LD : Nat := 2
abbrev OP_ST : Nat := 3
abbrev OP_JSR : Nat := 4
abbrev OP_AND : Nat := 5
abbrev OP_LDR : Nat := 6
abbrev OP_STR : Nat := 7
abbrev OP_RTI : Nat := 8
abbrev OP_NOT : Nat := 9
abbrev OP_LDI : Nat := 10
abbrev OP_STI : Nat := 11
abbrev OP_JMP : Nat := 12
abbrev OP_RES : Nat := 13
abbrev OP_LEA : Nat := 14
abbrev OP_TRAP : Nat := 15

abbrev FL_POS : Nat := 1 <<< 0
abbrev FL_ZRO : Nat := 1 <<< 1
abbrev FL_NEG : Nat := 1 <<< 2

abbrev TRAP_GETC : Nat := 0x20
abbrev TRAP_OUT : Nat := 0x21
abbrev TRAP_PUTS : Nat := 0x22
abbrev TRAP_IN : Nat := 0x23
abbrev TRAP_PUTSP : Nat := 0x24
abbrev TRAP_HALT : Nat := 0x25

abbrev MR_KBSR : Nat := 0xfe00
abbrev MR_KBDR : Nat := 0xfe02

abbrev PC_START : Nat := 0x3000

/-! ## Machine state -/

/-- The emulator's globals (`memory`, `reg`), the local `running` of `main`,
and the host's standard input, keyboard readiness and standard output. -/
structure State where
  memory : Nat → Nat
  reg : Nat → Nat
  running : Bool
  input : List Nat
  keys : Nat → Bool
  output : List Nat

/-- The two ways a step can fail to produce a next state: `abort()` was
called, or a string trap routine walked its pointer past the end of `memory`.
In the second case `s` is the machine state at that moment: memory and
registers as the routine found them (it only reads them), standard output with
the bytes written so far.  What the C program does from there on is not
defined by the source. -/
inductive Fault where
  | abort
  | outOfBounds (s : State)

/-- Conversion of an `int` to `uint16_t`. -/
def toU16 (c : Int) : Nat := (c % 65536).toNat

/-- Conversion of an `int` to plain `char`; `sc` says whether `char` is signed. -/
def toChar (sc : Bool) (c : Int) : Int :=
  if sc then (c + 128) % 256 - 128 else c % 256

/-- The byte `putc` writes for the `int` argument `c`: `(unsigned char) c`. -/
def putcByte (c : Int) : Nat := (c % 256).toNat

/-- The bytes of a string literal. -/
def bytes (str : String) : List Nat := str.data.map Char.toNat

/-- Every `uint16_t` object holds a 16-bit value and every input byte is a byte. -/
def WF (s : State) : Prop :=
  (∀ a, s.memory a < 65536) ∧ (∀ r, s.reg r < 65536) ∧ (∀ b ∈ s.input, b < 256)

/-! ## Host primitives -/

/-- `check_key`: one poll of the host; consumes the next readiness answer. -/
def check_key (s : State) : State × Bool :=
  ({ s with keys := fun n => s.keys (n + 1) }, s.keys 0)

/-- `getchar`: the next input byte, or `EOF = -1` when the input is exhausted. -/
def getchar (s : State) : State × Int :=
  match s.input with
  | [] => (s, -1)
  | b :: rest => ({ s with input := rest }, (b : Int))

/-! ## Helpers of `tiny.c` -/

/-- `sign_extend(x, bit_count)`. -/
def sign_extend (x : Nat) (bit_count : Nat) : Nat :=
  if (x >>> (bit_count - 1)) &&& 1 ≠ 0 then
    (x ||| (0xffff <<< bit_count)) % 65536
  else x

/-- `update_flags(r)` on the register array. -/
def update_flags (reg : Nat → Nat) (r : Nat) : Nat → Nat :=
  if reg r = 0 then
    Function.update reg R_COND FL_ZRO
  else if reg r >>> 15 ≠ 0 then
    Function.update reg R_COND FL_NEG
  else
    Function.update reg R_COND FL_POS

/-- `mem_write(address, val)`. -/
def mem_write (s : State) (address : Nat) (val : Nat) : State :=
  { s with memory := Function.update s.memory address val }

/-- `mem_read(address)`: the state after the call and the word returned. -/
def mem_read (s : State) (address : Nat) : State × Nat :=
  if address = MR_KBSR then
    let k := check_key s
    if k.2 then
      let s1 := { k.1 with memory := Function.update k.1.memory MR_KBSR (1 <<< 15) }
      let g := getchar s1
      let s2 := { g.1 with memory := Function.update g.1.memory MR_KBDR (toU16 g.2) }
      (s2, s2.memory address)
    else
      let s1 := { k.1 with memory := Function.update k.1.memory MR_KBSR 0 }
      (s1, s1.memory address)
  else
    (s, s.memory address)

/-- `swap16(x)`. -/
def swap16 (x : Nat) : Nat := ((x <<< 8) ||| (x >>> 8)) % 65536

/-! ## Image loading -/

/-- `fread(p, sizeof(uint16_t), max_read, file)` into `memory + p` on a
little-endian host: the bytes available (at most `2 * max_read`) are copied
in order, and the count of complete words is returned.  A trailing odd byte
is copied into the low byte of the next word and not counted (the C standard
leaves that word indeterminate; this is what the usual C libraries do). -/
def fread_words : Nat → (Nat → Nat) → Nat → List Nat → (Nat → Nat) × Nat
  | 0, memory, _, _ => (memory, 0)
  | _ + 1, memory, _, [] => (memory, 0)
  | _ + 1, memory, p, [b0] =>
      (Function.update memory p (memory p / 256 * 256 + b0), 0)
  | max_read + 1, memory, p, b0 :: b1 :: rest =>
      let r := fread_words max_read (Function.update memory p (b0 + 256 * b1)) (p + 1) rest
      (r.1, r.2 + 1)

/-- The loop `while (read-- > 0) { *p = swap16(*p); ++p; }`. -/
def swap_loop : Nat → (Nat → Nat) → Nat → (Nat → Nat)
  | 0, memory, _ => memory
  | read + 1, memory, p =>
      swap_loop read (Function.update memory p (swap16 (memory p))) (p + 1)

/-- `read_image_file(file)`, the file given by its bytes.  When the file has
no complete origin word `origin` is left uninitialised by the code: `none`. -/
def read_image_file (memory : Nat → Nat) (file : List Nat) : Option (Nat → Nat) :=
  match file with
  | b0 :: b1 :: payload =>
      let origin := swap16 (b0 + 256 * b1)
      let max_read := (MEMORY_MAX - origin) % 65536
      let r := fread_words max_read memory origin payload
      some (swap_loop r.2 r.1 origin)
  | _ => none

/-! ## The execution loop of `main` -/

/-- The fetch `instr = mem_read(reg[R_PC]++)`. -/
def fetch (s : State) : State × Nat :=
  let pc := s.reg R_PC
  let s1 := { s with reg := Function.update s.reg R_PC ((pc + 1) % 65536) }
  mem_read s1 pc

/-- The body of `case OP_ADD`. -/
def op_ADD (s : State) (instr : Nat) : State :=
  let r0 := (instr >>> 9) &&& 0x7
  let r1 := (instr >>> 6) &&& 0x7
  let imm_flag := (instr >>> 5) &&& 0x1
  if imm_flag ≠ 0 then
    let imm5 := sign_extend (instr &&& 0x1f) 5
    { s with reg := update_flags (Function.update s.reg r0 ((s.reg r1 + imm5) % 65536)) r0 }
  else
    let r2 := instr &&& 0x7
    { s with reg := update_flags (Function.update s.reg r0 ((s.reg r1 + s.reg r2) % 65536)) r0 }

/-- The body of `case OP_AND`. -/
def op_AND (s : State) (instr : Nat) : State :=
  let r0 := (instr >>> 9) &&& 0x7
  let r1 := (instr >>> 6) &&& 0x7
  let imm_flag := (instr >>> 5) &&& 0x1
  if imm_flag ≠ 0 then
    let imm5 := instr &&& 0x7
    { s with reg := update_flags (Function.update s.reg r0 (s.reg r1 &&& imm5)) r0 }
  else
    let r2 := instr &&& 0x7
    { s with reg := update_flags (Function.update s.reg r0 (s.reg r1 &&& s.reg r2)) r0 }

/-- The body of `case OP_NOT`; `~x` is computed in `int`, where it is
`-x - 1`, and stored into a `uint16_t`. -/
def op_NOT (s : State) (instr : Nat) : State :=
  let r0 := (instr >>> 9) &&& 0x7
  let r1 := (instr >>> 6) &&& 0x7
  { s with reg := update_flags (Function.update s.reg r0 (toU16 (-(s.reg r1 : Int) - 1))) r0 }

/-- The body of `case OP_BR`. -/
def op_BR (s : State) (instr : Nat) : State :=
  let pc_offset := sign_extend (instr &&& 0x1ff) 9
  let cond_flag := (instr >>> 9) &&& 0x7
  if cond_flag &&& s.reg R_COND ≠ 0 then
    { s with reg := Function.update s.reg R_PC ((s.reg R_PC + pc_offset) % 65536) }
  else s

/-- The body of `case OP_JMP`. -/
def op_JMP (s : State) (instr : Nat) : State :=
  let r1 := (instr >>> 6) &&& 0x7
  { s with reg := Function.update s.reg R_PC (s.reg r1) }

/-- The body of `case OP_JSR`. -/
def op_JSR (s : State) (instr : Nat) : State :=
  let reg1 := Function.update s.reg R_R7 (s.reg R_PC)
  let long_flag := (instr >>> 11) &&& 1
  if long_flag ≠ 0 then
    let pc_offset := sign_extend (instr &&& 0x7ff) 11
    { s with reg := Function.update reg1 R_PC ((reg1 R_PC + pc_offset) % 65536) }
  else
    let r1 := (instr >>> 6) &&& 0x7
    { s with reg := Function.update reg1 R_PC (reg1 r1) }

/-- The body of `case OP_LD`. -/
def op_LD (s : State) (instr : Nat) : State :=
  let r0 := (instr >>> 9) &&& 0x7
  let pc_offset := sign_extend (instr &&& 0x1ff) 9
  let m := mem_read s ((s.reg R_PC + pc_offset) % 65536)
  { m.1 with reg := update_flags (Function.update m.1.reg r0 m.2) r0 }

/-- The body of `case OP_LDI`. -/
def op_LDI (s : State) (instr : Nat) : State :=
  let r0 := (instr >>> 9) &&& 0x7
  let pc_offset := sign_extend (instr &&& 0x1ff) 9
  let m1 := mem_read s ((s.reg R_PC + pc_offset) % 65536)
  let m2 := mem_read m1.1 m1.2
  { m2.1 with reg := update_flags (Function.update m2.1.reg r0 m2.2) r0 }

/-- The body of `case OP_LDR`. -/
def op_LDR (s : State) (instr : Nat) : State :=
  let r0 := (instr >>> 9) &&& 0x7
  let r1 := (instr >>> 6) &&& 0x7
  let offset := sign_extend (instr &&& 0x3f) 6
  let m := mem_read s ((s.reg r1 + offset) % 65536)
  { m.1 with reg := update_flags (Function.update m.1.reg r0 m.2) r0 }

/-- The body of `case OP_LEA`. -/
def op_LEA (s : State) (instr : Nat) : State :=
  let r0 := (instr >>> 9) &&& 0x7
  let offset := sign_extend (instr &&& 0x1ff) 9
  { s with reg := update_flags (Function.update s.reg r0 ((s.reg R_PC + offset) % 65536)) r0 }

/-- The body of `case OP_ST`. -/
def op_ST (s : State) (instr : Nat) : State :=
  let r0 := (instr >>> 9) &&& 0x7
  let offset := sign_extend (instr &&& 0x1ff) 9
  mem_write s ((s.reg R_PC + offset) % 65536) (s.reg r0)

/-- The body of `case OP_STI`. -/
def op_STI (s : State) (instr : Nat) : State :=
  let r0 := (instr >>> 9) &&& 0x7
  let offset := sign_extend (instr &&& 0x1ff) 9
  let m := mem_read s ((s.reg R_PC + offset) % 65536)
  mem_write m.1 m.2 (m.1.reg r0)

/-- The body of `case OP_STR`. -/
def op_STR (s : State) (instr : Nat) : State :=
  let r0 := (instr >>> 9) &&& 0x7
  let r1 := (instr >>> 6) &&& 0x7
  let offset := sign_extend (instr &&& 0x3f) 6
  mem_write s ((s.reg r1 + offset) % 65536) (s.reg r0)

/-- The loop of `TRAP_PUTS`, `while (*c) { putc((char)*c, stdout); ++c; }`,
with `c` the index of the pointer into `memory`, `left` the number of words
from `c` to the end of the array and `out` the output so far: `.ok` with the
final output when a zero word is met, `.error` with the output written so far
when the pointer leaves the array first. -/
def puts_loop (sc : Bool) : Nat → (Nat → Nat) → Nat → List Nat → Except (List Nat) (List Nat)
  | 0, _, _, out => .error out
  | left + 1, memory, c, out =>
      if memory c ≠ 0 then
        puts_loop sc left memory (c + 1) (out ++ [putcByte (toChar sc (memory c : Nat))])
      else .ok out

/-- The loop of `TRAP_PUTSP`; arguments as for `puts_loop`. -/
def putsp_loop (sc : Bool) : Nat → (Nat → Nat) → Nat → List Nat → Except (List Nat) (List Nat)
  | 0, _, _, out => .error out
  | left + 1, memory, c, out =>
      if memory c ≠ 0 then
        let char1 := toChar sc ((memory c &&& 0xff : Nat) : Int)
        let out1 := out ++ [putcByte char1]
        let char2 := toChar sc ((memory c >>> 8 : Nat) : Int)
        let out2 := if char2 ≠ 0 then out1 ++ [putcByte char2] else out1
        putsp_loop sc left memory (c + 1) out2
      else .ok out

/-- The body of `case TRAP_GETC`. -/
def trap_getc (s : State) : State :=
  let g := getchar s
  { g.1 with reg := update_flags (Function.update g.1.reg R_R0 (toU16 g.2)) R_R0 }

/-- The body of `case TRAP_OUT`. -/
def trap_out (sc : Bool) (s : State) : State :=
  { s with output := s.output ++ [putcByte (toChar sc (s.reg R_R0 : Nat))] }

/-- The body of `case TRAP_PUTS`; the pointer starts at `memory + reg[R_R0]`,
`MEMORY_MAX - reg[R_R0]` words before the end of the array. -/
def trap_puts (sc : Bool) (s : State) : Except Fault State :=
  match puts_loop sc (MEMORY_MAX - s.reg R_R0) s.memory (s.reg R_R0) s.output with
  | .ok out => .ok { s with output := out }
  | .error out => .error (Fault.outOfBounds { s with output := out })

/-- The body of `case TRAP_IN`. -/
def trap_in (sc : Bool) (s : State) : State :=
  let s1 := { s with output := s.output ++ bytes "Enter a character: " }
  let g := getchar s1
  let c := toChar sc g.2
  let s2 := { g.1 with output := g.1.output ++ [putcByte c] }
  { s2 with reg := update_flags (Function.update s2.reg R_R0 (toU16 c)) R_R0 }

/-- The body of `case TRAP_PUTSP`. -/
def trap_putsp (sc : Bool) (s : State) : Except Fault State :=
  match putsp_loop sc (MEMORY_MAX - s.reg R_R0) s.memory (s.reg R_R0) s.output with
  | .ok out => .ok { s with output := out }
  | .error out => .error (Fault.outOfBounds { s with output := out })

/-- The body of `case TRAP_HALT`; `puts("HALT")` writes the string and a newline. -/
def trap_halt (s : State) : State :=
  { s with output := s.output ++ bytes "HALT\n", running := false }

/-- The body of `case OP_TRAP`. -/
def op_TRAP (sc : Bool) (s : State) (instr : Nat) : Except Fault State :=
  let s0 := { s with reg := Function.update s.reg R_R7 (s.reg R_PC) }
  let vect := instr &&& 0xff
  if vect = TRAP_GETC then .ok (trap_getc s0)
  else if vect = TRAP_OUT then .ok (trap_out sc s0)
  else if vect = TRAP_PUTS then trap_puts sc s0
  else if vect = TRAP_IN then .ok (trap_in sc s0)
  else if vect = TRAP_PUTSP then trap_putsp sc s0
  else if vect = TRAP_HALT then .ok (trap_halt s0)
  else .ok s0

/-- The `switch (op)` of the loop body, on the fetched word `instr`. -/
def exec (sc : Bool) (s : State) (instr : Nat) : Except Fault State :=
  let op := instr >>> 12
  if op = OP_ADD then .ok (op_ADD s instr)
  else if op = OP_AND then .ok (op_AND s instr)
  else if op = OP_NOT then .ok (op_NOT s instr)
  else if op = OP_BR then .ok (op_BR s instr)
  else if op = OP_JMP then .ok (op_JMP s instr)
  else if op = OP_JSR then .ok (op_JSR s instr)
  else if op = OP_LD then .ok (op_LD s instr)
  else if op = OP_LDI then .ok (op_LDI s instr)
  else if op = OP_LDR then .ok (op_LDR s instr)
  else if op = OP_LEA then .ok (op_LEA s instr)
  else if op = OP_ST then .ok (op_ST s instr)
  else if op = OP_STI then .ok (op_STI s instr)
  else if op = OP_STR then .ok (op_STR s instr)
  else if op = OP_TRAP then op_TRAP sc s instr
  else .error Fault.abort

/-- One iteration of the loop body: fetch, then dispatch. -/
def step (sc : Bool) (s : State) : Except Fault State :=
  let f := fetch s
  exec sc f.1 f.2

/-- The set-up of `main` before the loop: `COND = FL_ZRO`, `PC = PC_START`,
`running = 1`; memory and the other registers are as they were. -/
def startup (s : State) : State :=
  { s with
    reg := Function.update (Function.update s.reg R_COND FL_ZRO) R_PC PC_START,
    running := true }

/-- At most `n` iterations of `while (running) { ... }`. -/
def run (sc : Bool) : Nat → State → Except Fault State
  | 0, s => .ok s
  | n + 1, s =>
      if s.running then
        match step sc s with
        | .ok s1 => run sc n s1
        | .error e => .error e
      else .ok s

/-- The state `t` is reached from `s` by some number of iterations of the
loop, none of which aborts. -/
inductive Reach (sc : Bool) : State → State → Prop where
  | refl (s : State) : Reach sc s s
  | tail (s t u : State) : Reach sc s t → t.running = true → step sc t = .ok u → Reach sc s u

/-! ## Notions used to state the properties -/

/-- Bits `hi..lo` of the word `w`, as a number. -/
def bitsOf (w hi lo : Nat) : Nat := w / 2 ^ lo % 2 ^ (hi + 1 - lo)

/-- A 16-bit word read as a signed two's-complement integer. -/
def signed16 (w : Nat) : Int :=
  if 32768 ≤ w then (w : Int) - 65536 else (w : Int)

/-- The low `b` bits of `v` read as a signed `b`-bit two's-complement integer. -/
def signedField (v b : Nat) : Int :=
  if 2 ^ (b - 1) ≤ v % 2 ^ b then ((v % 2 ^ b : Nat) : Int) - ((2 ^ b : Nat) : Int)
  else ((v % 2 ^ b : Nat) : Int)

/-- The condition code that describes the 16-bit value `v`: `ZRO` for zero,
`NEG` when bit 15 is set, `POS` otherwise. -/
def flagOf (v : Nat) : Nat :=
  if v = 0 then FL_ZRO else if v.testBit 15 = true then FL_NEG else FL_POS

/-- The general register an instruction word writes and sets the condition
codes from: `DR` (bits 11..9) for ADD, AND, NOT, LD, LDI, LDR and LEA, `R0`
for the traps GETC and IN; `none` for every other word. -/
def writtenReg (instr : Nat) : Option Nat :=
  let op := bitsOf instr 15 12
  if op = OP_ADD ∨ op = OP_AND ∨ op = OP_NOT ∨ op = OP_LD ∨ op = OP_LDI ∨ op = OP_LDR
      ∨ op = OP_LEA then
    some (bitsOf instr 11 9)
  else if op = OP_TRAP ∧ (bitsOf instr 7 0 = TRAP_GETC ∨ bitsOf instr 7 0 = TRAP_IN) then
    some R_R0
  else none

/-- The address `(a + 1 + offset) mod 2^16` for the instruction word `instr`
fetched from address `a`, `offset` being its low `b` bits read as a signed
number. -/
def pcTarget (a instr b : Nat) : Nat :=
  (((a : Int) + 1 + signedField instr b) % 65536).toNat

/-! ## Concrete states used as examples -/

/-- Memory holding the words `l` from address `0x3000` on, zero elsewhere. -/
def image (l : List Nat) : Nat → Nat :=
  fun a => if 0x3000 ≤ a then l.getD (a - 0x3000) 0 else 0

/-- The start-up state of `main` over memory `image l`, with every general
register holding `r`, the bytes `inp` pending on standard input, no key ever
reported ready, and nothing written yet. -/
def bootState (l : List Nat) (r : Nat) (inp : List Nat) : State :=
  startup
    { memory := image l, reg := fun _ => r, running := false, input := inp,
      keys := fun _ => false, output := [] }

/-- The start-up state of `main` over the memory `memory`, with every general
register holding `r`, the bytes `inp` pending on standard input, the host
answering `key` to every keyboard poll, and nothing written yet. -/
def bootOn (memory : Nat → Nat) (r : Nat) (inp : List Nat) (key : Bool) : State :=
  startup
    { memory := memory, reg := fun _ => r, running := false, input := inp,
      keys := fun _ => key, output := [] }

/-- Memory holding the word `w` at address `0x3000` and the non-zero word 1
everywhere else: no string in it is terminated. -/
def unterminated (w : Nat) : Nat → Nat :=
  fun a => if a = 0x3000 then w else 1

/-! ## Bit fields and sign extension -/

theorem and_7 (x : Nat) : x &&& 7 = x % 8 := Nat.and_pow_two_sub_one_eq_mod x 3

theorem and_1 (x : Nat) : x &&& 1 = x % 2 := Nat.and_pow_two_sub_one_eq_mod x 1

theorem and_1f (x : Nat) : x &&& 31 = x % 32 := Nat.and_pow_two_sub_one_eq_mod x 5

theorem and_3f (x : Nat) : x &&& 63 = x % 64 := Nat.and_pow_two_sub_one_eq_mod x 6

theorem and_ff (x : Nat) : x &&& 255 = x % 256 := Nat.and_pow_two_sub_one_eq_mod x 8

theorem and_1ff (x : Nat) : x &&& 511 = x % 512 := Nat.and_pow_two_sub_one_eq_mod x 9

theorem and_7ff (x : Nat) : x &&& 2047 = x % 2048 := Nat.and_pow_two_sub_one_eq_mod x 11

theorem sign_bit_test (x n : Nat) : ((x >>> n) &&& 1 ≠ 0) ↔ x.testBit n = true := by
  simp [Nat.testBit, Nat.and_comm]

/-- Bit `i` of `sign_extend x b`, whatever `x` and `b`. -/
theorem sign_extend_testBit (x b i : Nat) :
    (sign_extend x b).testBit i =
      if x.testBit (b - 1) = true then (decide (i < 16) && (x.testBit i || decide (b ≤ i)))
      else x.testBit i := by
  unfold sign_extend
  by_cases h : x.testBit (b - 1) = true
  · rw [if_pos ((sign_bit_test x (b - 1)).2 h), if_pos h]
    have h16 : (65536 : Nat) = 2 ^ 16 := by norm_num
    have hff : (0xffff : Nat) = 2 ^ 16 - 1 := by norm_num
    rw [h16, Nat.testBit_mod_two_pow, Nat.testBit_lor, Nat.testBit_shiftLeft, hff,
      Nat.testBit_two_pow_sub_one]
    by_cases hi : i < 16 <;> by_cases hb : b ≤ i <;> simp [hi, hb]
    omega
  · rw [if_neg (fun hc => h ((sign_bit_test x (b - 1)).1 hc)), if_neg h]

/-- The value of `sign_extend` on a field already masked to `b` bits. -/
theorem sign_extend_masked (m b : Nat) (hb : b = 5 ∨ b = 6 ∨ b = 9 ∨ b = 11)
    (hm : m < 2 ^ b) :
    sign_extend m b = if 2 ^ (b - 1) ≤ m then m + 65536 - 2 ^ b else m := by
  unfold sign_extend
  have hor : m ||| (0xffff <<< b) = 2 ^ b * 0xffff + m := by
    rw [Nat.mul_add_lt_is_or hm, Nat.shiftLeft_eq, Nat.lor_comm, Nat.mul_comm]
  rw [hor, Nat.and_one_is_mod, Nat.shiftRight_eq_div_pow]
  rcases hb with rfl | rfl | rfl | rfl <;> norm_num at hm ⊢ <;> split <;> split <;> omega

/-- C7: for every value `v` and every width `b` among 5, 6, 9, 11, the word
`sign_extend(v & ((1 << b) - 1), b)` read as a signed 16-bit integer is the
low `b` bits of `v` read as a signed `b`-bit integer. -/
theorem sign_extend_signed (v b : Nat) (hb : b = 5 ∨ b = 6 ∨ b = 9 ∨ b = 11) :
    signed16 (sign_extend (v &&& ((1 <<< b) - 1)) b) = signedField v b := by
  have hmask : v &&& ((1 <<< b) - 1) = v % 2 ^ b := by
    rw [Nat.shiftLeft_eq, Nat.one_mul]; exact Nat.and_pow_two_sub_one_eq_mod v b
  have hlt : v % 2 ^ b < 2 ^ b := Nat.mod_lt _ (Nat.pos_pow_of_pos b (by decide))
  rw [hmask, sign_extend_masked _ b hb hlt]
  unfold signed16 signedField
  rcases hb with rfl | rfl | rfl | rfl <;> norm_num at hlt ⊢ <;> split <;> split <;> omega

theorem sign_extend_signed_witness :
    signed16 (sign_extend (0xE1FF &&& ((1 <<< 9) - 1)) 9) = signedField 0xE1FF 9 ∧
      signedField 0xE1FF 9 = -1 :=
  ⟨sign_extend_signed 0xE1FF 9 (by decide), by decide⟩

/-- C8 (as stated) fails: bit 4 of `0x20` is clear, yet bit 5 of
`sign_extend(0x20, 5)` is set, because the code returns its argument
unchanged when the sign bit is clear. -/
theorem sign_extend_high_bits_not_cleared :
    ¬ (∀ x b : Nat, x < 65536 → (b = 5 ∨ b = 6 ∨ b = 9 ∨ b = 11) →
        (x.testBit (b - 1) = true →
          ∀ i, b ≤ i → i < 16 → (sign_extend x b).testBit i = true) ∧
        (x.testBit (b - 1) = false →
          ∀ i, b ≤ i → i < 16 → (sign_extend x b).testBit i = false) ∧
        (∀ i, i < b → (sign_extend x b).testBit i = x.testBit i)) := by
  intro h
  have h1 := (h 0x20 5 (by decide) (by decide)).2.1 (by decide) 5 (by decide) (by decide)
  exact absurd h1 (by decide)

/-- C8 (amended): for every 16-bit `x` and every width `b` among 5, 6, 9, 11:
if bit `b - 1` of `x` is set, every bit above `b - 1` (up to bit 15) of
`sign_extend(x, b)` is 1; otherwise `sign_extend(x, b)` is `x` itself, so its
bits above `b - 1` are those of `x`, all 0 when `x` is below `2 ^ b`; in both
cases the low `b` bits are those of `x`. -/
theorem sign_extend_bits (x b : Nat) (hx : x < 65536)
    (hb : b = 5 ∨ b = 6 ∨ b = 9 ∨ b = 11) :
    (x.testBit (b - 1) = true →
      ∀ i, b ≤ i → i < 16 → (sign_extend x b).testBit i = true) ∧
    (x.testBit (b - 1) = false →
      sign_extend x b = x ∧
        (x < 2 ^ b → ∀ i, b ≤ i → i < 16 → (sign_extend x b).testBit i = false)) ∧
    (∀ i, i < b → (sign_extend x b).testBit i = x.testBit i) ∧
    sign_extend x b < 65536 := by
  refine ⟨?_, ?_, ?_, ?_⟩
  · intro hs i hbi hi
    rw [sign_extend_testBit, if_pos hs]
    simp [hi, hbi]
  · intro hs
    have hne : ¬ ((x >>> (b - 1)) &&& 1 ≠ 0) := by
      rw [sign_bit_test]; simp [hs]
    have heq : sign_extend x b = x := by
      unfold sign_extend; rw [if_neg hne]
    refine ⟨heq, ?_⟩
    intro hlt i hbi _
    rw [heq]
    exact Nat.testBit_lt_two_pow (Nat.lt_of_lt_of_le hlt (Nat.pow_le_pow_right (by decide) hbi))
  · intro i hi
    rw [sign_extend_testBit]
    split
    · have h16 : i < 16 := by rcases hb with rfl | rfl | rfl | rfl <;> omega
      have hnb : ¬ b ≤ i := by omega
      simp [h16, hnb]
    · rfl
  · unfold sign_extend
    split
    · exact Nat.mod_lt _ (by decide)
    · exact hx

theorem sign_extend_bits_witness :
    (sign_extend 0x1F 5).testBit 15 = true ∧ sign_extend 0x20 5 = 0x20 :=
  ⟨(sign_extend_bits 0x1F 5 (by decide) (by decide)).1 (by decide) 15 (by decide) (by decide),
   ((sign_extend_bits 0x20 5 (by decide) (by decide)).2.1 (by decide)).1⟩

/-! ## Memory reads, the fetch and the flags -/

theorem mem_read_reg (s : State) (a : Nat) : (mem_read s a).1.reg = s.reg := by
  unfold mem_read check_key getchar
  by_cases h : a = MR_KBSR
  · by_cases hk : s.keys 0 = true
    · cases hi : s.input <;> simp [h, hk, hi]
    · simp [h, hk]
  · simp [h]

theorem mem_read_of_ne (s : State) (a : Nat) (h : a ≠ MR_KBSR) :
    mem_read s a = (s, s.memory a) := by
  unfold mem_read; rw [if_neg h]

theorem mem_read_kbsr_val (s : State) :
    (mem_read s MR_KBSR).2 = 0x8000 ∨ (mem_read s MR_KBSR).2 = 0 := by
  unfold mem_read check_key getchar
  by_cases hk : s.keys 0 = true
  · left; cases hi : s.input <;> simp [hk, hi, Function.update]
  · right; simp [hk, Function.update]

theorem fetch_reg (s : State) :
    (fetch s).1.reg = Function.update s.reg R_PC ((s.reg R_PC + 1) % 65536) := by
  unfold fetch; simp only []; rw [mem_read_reg]

theorem fetch_of_ne (s : State) (h : s.reg R_PC ≠ MR_KBSR) :
    fetch s = ({ s with reg := Function.update s.reg R_PC ((s.reg R_PC + 1) % 65536) },
      s.memory (s.reg R_PC)) := by
  unfold fetch; simp only []; rw [mem_read_of_ne _ _ h]

theorem fetch_kbsr_val (s : State) (h : s.reg R_PC = MR_KBSR) :
    (fetch s).2 = 0x8000 ∨ (fetch s).2 = 0 := by
  unfold fetch; simp only []; rw [h]; exact mem_read_kbsr_val _

theorem pc_ne_of_op (s : State) (h0 : (fetch s).2 >>> 12 ≠ OP_BR) (h8 : (fetch s).2 >>> 12 ≠ OP_RTI) :
    s.reg R_PC ≠ MR_KBSR := by
  intro h
  rcases fetch_kbsr_val s h with h1 | h1
  · rw [h1] at h8; exact h8 (by decide)
  · rw [h1] at h0; exact h0 (by decide)

theorem update_flags_cond (reg : Nat → Nat) (r : Nat) (hv : reg r < 65536) :
    update_flags reg r R_COND = flagOf (reg r) := by
  unfold update_flags flagOf
  by_cases h0 : reg r = 0
  · simp [h0]
  · simp only [if_neg h0]
    have : (reg r >>> 15 ≠ 0) ↔ (reg r).testBit 15 = true := by
      rw [Nat.testBit_to_div_mod, Nat.shiftRight_eq_div_pow]
      simp only [decide_eq_true_eq]
      norm_num
      omega
    by_cases h1 : reg r >>> 15 ≠ 0
    · rw [if_pos h1, if_pos (this.1 h1)]; simp
    · rw [if_neg h1, if_neg (fun hc => h1 (this.2 hc))]; simp

theorem update_flags_of_ne (reg : Nat → Nat) (r k : Nat) (hk : k ≠ R_COND) :
    update_flags reg r k = reg k := by
  unfold update_flags
  split
  · exact Function.update_noteq hk _ _
  · split <;> exact Function.update_noteq hk _ _

theorem toU16_lt (c : Int) : toU16 c < 65536 := by
  unfold toU16
  have h1 : 0 ≤ c % 65536 := Int.emod_nonneg _ (by decide)
  have h2 : c % 65536 < 65536 := Int.emod_lt_of_pos _ (by decide)
  omega

theorem mem_read_lt (s : State) (a : Nat) (h : ∀ k, s.memory k < 65536) :
    (mem_read s a).2 < 65536 ∧ ∀ k, (mem_read s a).1.memory k < 65536 := by
  have hup : ∀ (m : Nat → Nat) (i v : Nat), (∀ k, m k < 65536) → v < 65536 →
      ∀ k, Function.update m i v k < 65536 := by
    intro m i v hm hv k
    by_cases hk : k = i
    · rw [hk, Function.update_same]; exact hv
    · rw [Function.update_noteq hk]; exact hm k
  unfold mem_read check_key getchar
  by_cases ha : a = MR_KBSR
  · by_cases hk : s.keys 0 = true
    · cases hi : s.input <;> simp only [ha, hk, hi, if_true] <;>
        exact ⟨hup _ _ _ (hup _ _ _ h (by decide)) (toU16_lt _) _,
          hup _ _ _ (hup _ _ _ h (by decide)) (toU16_lt _)⟩
    · simp only [ha, hk, if_true, if_false]
      exact ⟨hup _ _ _ h (by decide) _, hup _ _ _ h (by decide)⟩
  · simp only [ha, if_false]
    exact ⟨h _, h⟩

theorem fetch_lt (s : State) (h : ∀ k, s.memory k < 65536) :
    (fetch s).2 < 65536 ∧ ∀ k, (fetch s).1.memory k < 65536 := by
  unfold fetch
  exact mem_read_lt _ _ h

theorem flags_after_write (reg : Nat → Nat) (r v : Nat) (hr : r < 8) (hv : v < 65536) :
    update_flags (Function.update reg r v) r R_COND
      = flagOf (update_flags (Function.update reg r v) r r) := by
  have hne : r ≠ R_COND := by show r ≠ 9; omega
  rw [update_flags_of_ne _ _ _ hne, update_flags_cond]
  rw [Function.update_same]; exact hv

theorem field_lt_8 (x : Nat) : x &&& 7 < 8 := by rw [and_7]; omega

theorem exec_ADD (sc : Bool) (s : State) (instr : Nat) (h : instr >>> 12 = OP_ADD) :
    exec sc s instr = .ok (op_ADD s instr) := by simp [exec, h]
theorem exec_AND (sc : Bool) (s : State) (instr : Nat) (h : instr >>> 12 = OP_AND) :
    exec sc s instr = .ok (op_AND s instr) := by simp [exec, h]
theorem exec_NOT (sc : Bool) (s : State) (instr : Nat) (h : instr >>> 12 = OP_NOT) :
    exec sc s instr = .ok (op_NOT s instr) := by simp [exec, h]
theorem exec_BR (sc : Bool) (s : State) (instr : Nat) (h : instr >>> 12 = OP_BR) :
    exec sc s instr = .ok (op_BR s instr) := by simp [exec, h]
theorem exec_JMP (sc : Bool) (s : State) (instr : Nat) (h : instr >>> 12 = OP_JMP) :
    exec sc s instr = .ok (op_JMP s instr) := by simp [exec, h]
theorem exec_JSR (sc : Bool) (s : State) (instr : Nat) (h : instr >>> 12 = OP_JSR) :
    exec sc s instr = .ok (op_JSR s instr) := by simp [exec, h]
theorem exec_LD (sc : Bool) (s : State) (instr : Nat) (h : instr >>> 12 = OP_LD) :
    exec sc s instr = .ok (op_LD s instr) := by simp [exec, h]
theorem exec_LDI (sc : Bool) (s : State) (instr : Nat) (h : instr >>> 12 = OP_LDI) :
    exec sc s instr = .ok (op_LDI s instr) := by simp [exec, h]
theorem exec_LDR (sc : Bool) (s : State) (instr : Nat) (h : instr >>> 12 = OP_LDR) :
    exec sc s instr = .ok (op_LDR s instr) := by simp [exec, h]
theorem exec_LEA (sc : Bool) (s : State) (instr : Nat) (h : instr >>> 12 = OP_LEA) :
    exec sc s instr = .ok (op_LEA s instr) := by simp [exec, h]
theorem exec_ST (sc : Bool) (s : State) (instr : Nat) (h : instr >>> 12 = OP_ST) :
    exec sc s instr = .ok (op_ST s instr) := by simp [exec, h]
theorem exec_STI (sc : Bool) (s : State) (instr : Nat) (h : instr >>> 12 = OP_STI) :
    exec sc s instr = .ok (op_STI s instr) := by simp [exec, h]
theorem exec_STR (sc : Bool) (s : State) (instr : Nat) (h : instr >>> 12 = OP_STR) :
    exec sc s instr = .ok (op_STR s instr) := by simp [exec, h]
theorem exec_TRAP (sc : Bool) (s : State) (instr : Nat) (h : instr >>> 12 = OP_TRAP) :
    exec sc s instr = op_TRAP sc s instr := by simp [exec, h]

theorem exec_abort (sc : Bool) (s : State) (instr : Nat)
    (h : instr >>> 12 = OP_RTI ∨ instr >>> 12 = OP_RES ∨ 16 ≤ instr >>> 12) :
    exec sc s instr = .error Fault.abort := by
  unfold exec
  rcases h with h | h | h
  · simp [h]
  · simp [h]
  · have h1 : ∀ k, k < 16 → ¬ (instr >>> 12 = k) := by intro k hk; omega
    dsimp only
    rw [if_neg (h1 OP_ADD (by decide)), if_neg (h1 OP_AND (by decide)),
      if_neg (h1 OP_NOT (by decide)), if_neg (h1 OP_BR (by decide)),
      if_neg (h1 OP_JMP (by decide)), if_neg (h1 OP_JSR (by decide)),
      if_neg (h1 OP_LD (by decide)), if_neg (h1 OP_LDI (by decide)),
      if_neg (h1 OP_LDR (by decide)), if_neg (h1 OP_LEA (by decide)),
      if_neg (h1 OP_ST (by decide)), if_neg (h1 OP_STI (by decide)),
      if_neg (h1 OP_STR (by decide)), if_neg (h1 OP_TRAP (by decide))]

/-- The dispatch of `exec`, opcode by opcode. -/
theorem exec_cases (sc : Bool) (s : State) (instr : Nat) :
    (instr >>> 12 = OP_ADD ∧ exec sc s instr = .ok (op_ADD s instr)) ∨
    (instr >>> 12 = OP_AND ∧ exec sc s instr = .ok (op_AND s instr)) ∨
    (instr >>> 12 = OP_NOT ∧ exec sc s instr = .ok (op_NOT s instr)) ∨
    (instr >>> 12 = OP_BR ∧ exec sc s instr = .ok (op_BR s instr)) ∨
    (instr >>> 12 = OP_JMP ∧ exec sc s instr = .ok (op_JMP s instr)) ∨
    (instr >>> 12 = OP_JSR ∧ exec sc s instr = .ok (op_JSR s instr)) ∨
    (instr >>> 12 = OP_LD ∧ exec sc s instr = .ok (op_LD s instr)) ∨
    (instr >>> 12 = OP_LDI ∧ exec sc s instr = .ok (op_LDI s instr)) ∨
    (instr >>> 12 = OP_LDR ∧ exec sc s instr = .ok (op_LDR s instr)) ∨
    (instr >>> 12 = OP_LEA ∧ exec sc s instr = .ok (op_LEA s instr)) ∨
    (instr >>> 12 = OP_ST ∧ exec sc s instr = .ok (op_ST s instr)) ∨
    (instr >>> 12 = OP_STI ∧ exec sc s instr = .ok (op_STI s instr)) ∨
    (instr >>> 12 = OP_STR ∧ exec sc s instr = .ok (op_STR s instr)) ∨
    (instr >>> 12 = OP_TRAP ∧ exec sc s instr = op_TRAP sc s instr) ∨
    ((instr >>> 12 = OP_RTI ∨ instr >>> 12 = OP_RES ∨ 16 ≤ instr >>> 12) ∧
      exec sc s instr = .error Fault.abort) := by
  have hk : ∀ n : Nat, n = 1 ∨ n = 5 ∨ n = 9 ∨ n = 0 ∨ n = 12 ∨ n = 4 ∨ n = 2 ∨ n = 10 ∨ n = 6 ∨
      n = 14 ∨ n = 3 ∨ n = 11 ∨ n = 7 ∨ n = 15 ∨ (n = 8 ∨ n = 13 ∨ 16 ≤ n) := by
    intro n; omega
  rcases hk (instr >>> 12) with h | h | h | h | h | h | h | h | h | h | h | h | h | h | h
  · exact Or.inl ⟨h, exec_ADD _ _ _ h⟩
  · exact Or.inr (Or.inl ⟨h, exec_AND _ _ _ h⟩)
  · exact Or.inr (Or.inr (Or.inl ⟨h, exec_NOT _ _ _ h⟩))
  · exact Or.inr (Or.inr (Or.inr (Or.inl ⟨h, exec_BR _ _ _ h⟩)))
  · exact Or.inr (Or.inr (Or.inr (Or.inr (Or.inl ⟨h, exec_JMP _ _ _ h⟩))))
  · exact Or.inr (Or.inr (Or.inr (Or.inr (Or.inr (Or.inl ⟨h, exec_JSR _ _ _ h⟩)))))
  · exact Or.inr (Or.inr (Or.inr (Or.inr (Or.inr (Or.inr (Or.inl ⟨h, exec_LD _ _ _ h⟩))))))
  · exact Or.inr (Or.inr (Or.inr (Or.inr (Or.inr (Or.inr (Or.inr
      (Or.inl ⟨h, exec_LDI _ _ _ h⟩)))))))
  · exact Or.inr (Or.inr (Or.inr (Or.inr (Or.inr (Or.inr (Or.inr (Or.inr
      (Or.inl ⟨h, exec_LDR _ _ _ h⟩))))))))
  · exact Or.inr (Or.inr (Or.inr (Or.inr (Or.inr (Or.inr (Or.inr (Or.inr (Or.inr
      (Or.inl ⟨h, exec_LEA _ _ _ h⟩)))))))))
  · exact Or.inr (Or.inr (Or.inr (Or.inr (Or.inr (Or.inr (Or.inr (Or.inr (Or.inr (Or.inr
      (Or.inl ⟨h, exec_ST _ _ _ h⟩))))))))))
  · exact Or.inr (Or.inr (Or.inr (Or.inr (Or.inr (Or.inr (Or.inr (Or.inr (Or.inr (Or.inr (Or.inr
      (Or.inl ⟨h, exec_STI _ _ _ h⟩)))))))))))
  · exact Or.inr (Or.inr (Or.inr (Or.inr (Or.inr (Or.inr (Or.inr (Or.inr (Or.inr (Or.inr (Or.inr
      (Or.inr (Or.inl ⟨h, exec_STR _ _ _ h⟩))))))))))))
  · exact Or.inr (Or.inr (Or.inr (Or.inr (Or.inr (Or.inr (Or.inr (Or.inr (Or.inr (Or.inr (Or.inr
      (Or.inr (Or.inr (Or.inl ⟨h, exec_TRAP _ _ _ h⟩)))))))))))))
  · exact Or.inr (Or.inr (Or.inr (Or.inr (Or.inr (Or.inr (Or.inr (Or.inr (Or.inr (Or.inr (Or.inr
      (Or.inr (Or.inr (Or.inr ⟨h, exec_abort _ _ _ h⟩)))))))))))))

/-- The dispatch of `op_TRAP` on the vector `TRAP_GETC`; the routine starts in
the state where `R7` already holds the incremented PC. -/
theorem trap_GETC (sc : Bool) (s : State) (instr : Nat) (h : instr &&& 0xff = TRAP_GETC) :
    op_TRAP sc s instr =
      .ok (trap_getc { s with reg := Function.update s.reg R_R7 (s.reg R_PC) }) := by
  simp [op_TRAP, h]

theorem trap_OUT (sc : Bool) (s : State) (instr : Nat) (h : instr &&& 0xff = TRAP_OUT) :
    op_TRAP sc s instr =
      .ok (trap_out sc { s with reg := Function.update s.reg R_R7 (s.reg R_PC) }) := by
  simp [op_TRAP, h]

theorem trap_PUTS (sc : Bool) (s : State) (instr : Nat) (h : instr &&& 0xff = TRAP_PUTS) :
    op_TRAP sc s instr =
      trap_puts sc { s with reg := Function.update s.reg R_R7 (s.reg R_PC) } := by
  simp [op_TRAP, h]

theorem trap_IN (sc : Bool) (s : State) (instr : Nat) (h : instr &&& 0xff = TRAP_IN) :
    op_TRAP sc s instr =
      .ok (trap_in sc { s with reg := Function.update s.reg R_R7 (s.reg R_PC) }) := by
  simp [op_TRAP, h]

theorem trap_PUTSP (sc : Bool) (s : State) (instr : Nat) (h : instr &&& 0xff = TRAP_PUTSP) :
    op_TRAP sc s instr =
      trap_putsp sc { s with reg := Function.update s.reg R_R7 (s.reg R_PC) } := by
  simp [op_TRAP, h]

theorem trap_HALT (sc : Bool) (s : State) (instr : Nat) (h : instr &&& 0xff = TRAP_HALT) :
    op_TRAP sc s instr =
      .ok (trap_halt { s with reg := Function.update s.reg R_R7 (s.reg R_PC) }) := by
  simp [op_TRAP, h]

theorem trap_unknown (sc : Bool) (s : State) (instr : Nat)
    (h : instr &&& 0xff < 0x20 ∨ 0x25 < instr &&& 0xff) :
    op_TRAP sc s instr = .ok { s with reg := Function.update s.reg R_R7 (s.reg R_PC) } := by
  have h1 : ∀ k, 0x20 ≤ k → k ≤ 0x25 → ¬ (instr &&& 0xff = k) := by intro k _ _; omega
  unfold op_TRAP
  dsimp only
  rw [if_neg (h1 TRAP_GETC (by decide) (by decide)), if_neg (h1 TRAP_OUT (by decide) (by decide)),
    if_neg (h1 TRAP_PUTS (by decide) (by decide)), if_neg (h1 TRAP_IN (by decide) (by decide)),
    if_neg (h1 TRAP_PUTSP (by decide) (by decide)), if_neg (h1 TRAP_HALT (by decide) (by decide))]

theorem image_lt (l : List Nat) (hl : ∀ x ∈ l, x < 65536) (a : Nat) : image l a < 65536 := by
  unfold image
  split
  · rw [List.getD_eq_getElem?_getD]
    cases h : l[a - 12288]? with
    | none => simp
    | some v =>
      simp only [Option.getD_some]
      exact hl v (List.getElem?_mem h)
  · decide

theorem WF_bootState (l : List Nat) (r : Nat) (inp : List Nat) (hl : ∀ x ∈ l, x < 65536)
    (hr : r < 65536) (hi : ∀ b ∈ inp, b < 256) : WF (bootState l r inp) := by
  refine ⟨image_lt l hl, ?_, hi⟩
  intro k
  show Function.update (Function.update (fun _ => r) R_COND FL_ZRO) R_PC PC_START k < 65536
  by_cases h8 : k = R_PC
  · rw [h8, Function.update_same]; decide
  · rw [Function.update_noteq h8]
    by_cases h9 : k = R_COND
    · rw [h9, Function.update_same]; decide
    · rw [Function.update_noteq h9]; exact hr

/-- C1: in a well-formed state, executing an instruction that writes a
general register (ADD, AND, NOT, LD, LDI, LDR, LEA, TRAP GETC, TRAP IN)
succeeds and leaves COND equal to the flag of the final value of that
register: ZRO if it is 0, NEG if its bit 15 is set, POS otherwise. -/
theorem cond_matches_written (sc : Bool) (s : State) (r : Nat) (hwf : WF s)
    (hw : writtenReg (fetch s).2 = some r) :
    ∃ s1, step sc s = .ok s1 ∧ s1.reg R_COND = flagOf (s1.reg r) := by
  obtain ⟨hlt, hmem⟩ := fetch_lt s hwf.1
  have hop : bitsOf (fetch s).2 15 12 = (fetch s).2 >>> 12 := by
    unfold bitsOf; rw [Nat.shiftRight_eq_div_pow]; norm_num; omega
  have hdr : bitsOf (fetch s).2 11 9 = ((fetch s).2 >>> 9) &&& 7 := by
    unfold bitsOf; rw [Nat.shiftRight_eq_div_pow, and_7]; norm_num
  have hvec : bitsOf (fetch s).2 7 0 = (fetch s).2 &&& 0xff := by
    unfold bitsOf; rw [and_ff]; norm_num
  unfold writtenReg at hw
  rw [hop, hdr, hvec] at hw
  have hreg : ∀ k, (fetch s).1.reg k < 65536 := by
    intro k
    rw [fetch_reg]
    by_cases hk : k = R_PC
    · rw [hk, Function.update_same]; exact Nat.mod_lt _ (by decide)
    · rw [Function.update_noteq hk]; exact hwf.2.1 k
  show ∃ s1, exec sc (fetch s).1 (fetch s).2 = .ok s1 ∧ _
  generalize (fetch s).2 = instr at *
  generalize hs1 : (fetch s).1 = t at *
  simp only [] at hw
  split at hw
  · rename_i hcase
    have hr : r = (instr >>> 9) &&& 7 := by injection hw with hw; exact hw.symm
    have hr8 : (instr >>> 9) &&& 7 < 8 := field_lt_8 _
    subst hr
    rcases hcase with h | h | h | h | h | h | h
    · rw [exec_ADD _ _ _ h]
      refine ⟨_, rfl, ?_⟩
      unfold op_ADD
      simp only []
      split <;> exact flags_after_write _ _ _ hr8 (Nat.mod_lt _ (by decide))
    · rw [exec_AND _ _ _ h]
      refine ⟨_, rfl, ?_⟩
      unfold op_AND
      simp only []
      split <;> refine flags_after_write _ _ _ hr8 ?_
      · have := @Nat.and_le_right (t.reg (instr >>> 6 &&& 7)) (instr &&& 7)
        have := field_lt_8 instr
        omega
      · have h1 := @Nat.and_le_left (t.reg (instr >>> 6 &&& 7)) (t.reg (instr &&& 7))
        have h2 := hreg (instr >>> 6 &&& 7)
        omega
    · rw [exec_NOT _ _ _ h]
      refine ⟨_, rfl, ?_⟩
      unfold op_NOT
      exact flags_after_write _ _ _ hr8 (toU16_lt _)
    · rw [exec_LD _ _ _ h]
      refine ⟨_, rfl, ?_⟩
      unfold op_LD
      exact flags_after_write _ _ _ hr8 (mem_read_lt _ _ hmem).1
    · rw [exec_LDI _ _ _ h]
      refine ⟨_, rfl, ?_⟩
      unfold op_LDI
      exact flags_after_write _ _ _ hr8 (mem_read_lt _ _ (mem_read_lt _ _ hmem).2).1
    · rw [exec_LDR _ _ _ h]
      refine ⟨_, rfl, ?_⟩
      unfold op_LDR
      exact flags_after_write _ _ _ hr8 (mem_read_lt _ _ hmem).1
    · rw [exec_LEA _ _ _ h]
      refine ⟨_, rfl, ?_⟩
      unfold op_LEA
      exact flags_after_write _ _ _ hr8 (Nat.mod_lt _ (by decide))
  · split at hw
    · rename_i hcase
      have hr : r = R_R0 := by injection hw with hw; exact hw.symm
      subst hr
      rw [exec_TRAP _ _ _ hcase.1]
      rcases hcase.2 with h | h
      · rw [trap_GETC _ _ _ h]
        exact ⟨_, rfl, flags_after_write _ _ _ (by decide) (toU16_lt _)⟩
      · rw [trap_IN _ _ _ h]
        exact ⟨_, rfl, flags_after_write _ _ _ (by decide) (toU16_lt _)⟩
    · exact absurd hw (by simp)

theorem cond_matches_written_witness :
    writtenReg (fetch (bootState [0x1025, 0xF025] 0 [])).2 = some 0 ∧
    ∃ s1, step true (bootState [0x1025, 0xF025] 0 []) = .ok s1 ∧
      s1.reg R_COND = flagOf (s1.reg 0) :=
  ⟨by decide, cond_matches_written true (bootState [0x1025, 0xF025] 0 []) 0
    (WF_bootState _ _ _ (by decide) (by decide) (by decide)) (by decide)⟩

/-! ## The condition codes along a run -/

theorem fetch_reg_of_ne (s : State) (k : Nat) (hk : k ≠ R_PC) : (fetch s).1.reg k = s.reg k := by
  rw [fetch_reg, Function.update_noteq hk]

theorem fetch_reg_pc (s : State) : (fetch s).1.reg R_PC = (s.reg R_PC + 1) % 65536 := by
  rw [fetch_reg, Function.update_same]

theorem update_flags_range (reg : Nat → Nat) (r : Nat) :
    update_flags reg r R_COND = FL_POS ∨ update_flags reg r R_COND = FL_ZRO ∨
      update_flags reg r R_COND = FL_NEG := by
  unfold update_flags
  split
  · right; left; exact Function.update_same _ _ _
  · split
    · right; right; exact Function.update_same _ _ _
    · left; exact Function.update_same _ _ _

theorem cond_update_pc (f : Nat → Nat) (v : Nat) :
    Function.update f R_PC v R_COND = f R_COND :=
  Function.update_noteq (show R_COND ≠ R_PC by decide) _ _

theorem cond_update_r7 (f : Nat → Nat) (v : Nat) :
    Function.update f R_R7 v R_COND = f R_COND :=
  Function.update_noteq (show R_COND ≠ R_R7 by decide) _ _

theorem trap_vector_cases (v : Nat) :
    v = TRAP_GETC ∨ v = TRAP_OUT ∨ v = TRAP_PUTS ∨ v = TRAP_IN ∨ v = TRAP_PUTSP ∨
      v = TRAP_HALT ∨ (v < 0x20 ∨ 0x25 < v) := by
  show v = 0x20 ∨ v = 0x21 ∨ v = 0x22 ∨ v = 0x23 ∨ v = 0x24 ∨ v = 0x25 ∨ _
  omega

/-- What one instruction does to COND: it leaves it alone, or the register
file it leaves is the result of a call of `update_flags`. -/
theorem step_cond (sc : Bool) (s s1 : State) (h : step sc s = .ok s1) :
    s1.reg R_COND = s.reg R_COND ∨ ∃ regs r, s1.reg = update_flags regs r := by
  have hc : (fetch s).1.reg R_COND = s.reg R_COND := fetch_reg_of_ne s _ (by decide)
  have hstep : exec sc (fetch s).1 (fetch s).2 = .ok s1 := h
  generalize (fetch s).2 = instr at *
  generalize (fetch s).1 = t at *
  rw [← hc]
  rcases exec_cases sc t instr with ⟨_, he⟩ | ⟨_, he⟩ | ⟨_, he⟩ | ⟨_, he⟩ | ⟨_, he⟩ | ⟨_, he⟩ |
    ⟨_, he⟩ | ⟨_, he⟩ | ⟨_, he⟩ | ⟨_, he⟩ | ⟨_, he⟩ | ⟨_, he⟩ | ⟨_, he⟩ | ⟨_, he⟩ | ⟨_, he⟩ <;>
    rw [he] at hstep
  · injection hstep with hstep; subst hstep; right; unfold op_ADD; dsimp only
    split <;> exact ⟨_, _, rfl⟩
  · injection hstep with hstep; subst hstep; right; unfold op_AND; dsimp only
    split <;> exact ⟨_, _, rfl⟩
  · injection hstep with hstep; subst hstep; right; exact ⟨_, _, rfl⟩
  · injection hstep with hstep; subst hstep; left; unfold op_BR; dsimp only
    split
    · simp only [cond_update_pc, cond_update_r7]
    · rfl
  · injection hstep with hstep; subst hstep; left
    simp only [op_JMP, cond_update_pc, cond_update_r7]
  · injection hstep with hstep; subst hstep; left; unfold op_JSR; dsimp only
    split
    · simp only [cond_update_pc, cond_update_r7]
    · simp only [cond_update_pc, cond_update_r7]
  · injection hstep with hstep; subst hstep; right; exact ⟨_, _, rfl⟩
  · injection hstep with hstep; subst hstep; right; exact ⟨_, _, rfl⟩
  · injection hstep with hstep; subst hstep; right; exact ⟨_, _, rfl⟩
  · injection hstep with hstep; subst hstep; right; exact ⟨_, _, rfl⟩
  · injection hstep with hstep; subst hstep; left; rfl
  · injection hstep with hstep; subst hstep; left
    show (mem_read t _).1.reg R_COND = _
    rw [mem_read_reg]
  · injection hstep with hstep; subst hstep; left; rfl
  · rcases trap_vector_cases (instr &&& 0xff) with hv | hv | hv | hv | hv | hv | hv
    · rw [trap_GETC _ _ _ hv] at hstep
      injection hstep with hstep; subst hstep; right; exact ⟨_, _, rfl⟩
    · rw [trap_OUT _ _ _ hv] at hstep
      injection hstep with hstep; subst hstep; left
      simp only [trap_out, trap_halt, cond_update_pc, cond_update_r7]
    · rw [trap_PUTS _ _ _ hv] at hstep
      unfold trap_puts at hstep
      split at hstep
      · injection hstep with hstep; subst hstep; left
        simp only [trap_out, trap_halt, cond_update_pc, cond_update_r7]
      · exact absurd hstep (by simp)
    · rw [trap_IN _ _ _ hv] at hstep
      injection hstep with hstep; subst hstep; right; exact ⟨_, _, rfl⟩
    · rw [trap_PUTSP _ _ _ hv] at hstep
      unfold trap_putsp at hstep
      split at hstep
      · injection hstep with hstep; subst hstep; left
        simp only [trap_out, trap_halt, cond_update_pc, cond_update_r7]
      · exact absurd hstep (by simp)
    · rw [trap_HALT _ _ _ hv] at hstep
      injection hstep with hstep; subst hstep; left
      simp only [trap_out, trap_halt, cond_update_pc, cond_update_r7]
    · rw [trap_unknown _ _ _ hv] at hstep
      injection hstep with hstep; subst hstep; left
      simp only [trap_out, trap_halt, cond_update_pc, cond_update_r7]
  · exact absurd hstep (by simp)

/-! ## Arithmetic instructions -/

theorem pc_offset_9 (a instr : Nat) :
    ((a + 1) % 65536 + sign_extend (instr &&& 0x1ff) 9) % 65536 = pcTarget a instr 9 := by
  have hlt : instr % 512 < 2 ^ 9 := Nat.mod_lt _ (by decide)
  rw [and_1ff, sign_extend_masked _ 9 (by decide) hlt]
  unfold pcTarget signedField
  norm_num at hlt ⊢
  split <;> omega

theorem pc_offset_11 (a instr : Nat) :
    ((a + 1) % 65536 + sign_extend (instr &&& 0x7ff) 11) % 65536 = pcTarget a instr 11 := by
  have hlt : instr % 2048 < 2 ^ 11 := Nat.mod_lt _ (by decide)
  rw [and_7ff, sign_extend_masked _ 11 (by decide) hlt]
  unfold pcTarget signedField
  norm_num at hlt ⊢
  split <;> omega

theorem imm5_signed (x instr : Nat) :
    ((x + sign_extend (instr &&& 0x1f) 5) % 65536 : Nat) =
      (((x : Int) + signedField instr 5) % 65536).toNat := by
  have hlt : instr % 32 < 2 ^ 5 := Nat.mod_lt _ (by decide)
  rw [and_1f, sign_extend_masked _ 5 (by decide) hlt]
  unfold signedField
  norm_num at hlt ⊢
  split <;> omega

theorem bitsOf_op (instr : Nat) (h : instr < 65536) : bitsOf instr 15 12 = instr >>> 12 := by
  unfold bitsOf; rw [Nat.shiftRight_eq_div_pow]; norm_num; omega

theorem bitsOf_dr (instr : Nat) : bitsOf instr 11 9 = (instr >>> 9) &&& 7 := by
  unfold bitsOf; rw [Nat.shiftRight_eq_div_pow, and_7]; norm_num

theorem bitsOf_sr1 (instr : Nat) : bitsOf instr 8 6 = (instr >>> 6) &&& 7 := by
  unfold bitsOf; rw [Nat.shiftRight_eq_div_pow, and_7]; norm_num

theorem bitsOf_sr2 (instr : Nat) : bitsOf instr 2 0 = instr &&& 7 := by
  unfold bitsOf; rw [and_7]; norm_num

theorem bitsOf_bit5 (instr : Nat) : bitsOf instr 5 5 = (instr >>> 5) &&& 1 := by
  unfold bitsOf; rw [Nat.shiftRight_eq_div_pow, and_1]; norm_num

theorem bitsOf_bit11 (instr : Nat) : bitsOf instr 11 11 = (instr >>> 11) &&& 1 := by
  unfold bitsOf; rw [Nat.shiftRight_eq_div_pow, and_1]; norm_num

theorem bitsOf_vect (instr : Nat) : bitsOf instr 7 0 = instr &&& 0xff := by
  unfold bitsOf; rw [and_ff]; norm_num

theorem bitsOf_reg_lt (instr : Nat) : (instr >>> 9) &&& 7 < 8 ∧ (instr >>> 6) &&& 7 < 8 ∧
    instr &&& 7 < 8 :=
  ⟨field_lt_8 _, field_lt_8 _, field_lt_8 _⟩

/-- The fetch of an instruction other than BR or RTI leaves memory, input and
output alone: such a word cannot be fetched from the keyboard status register. -/
theorem fetch_plain (s : State) (h0 : (fetch s).2 >>> 12 ≠ OP_BR)
    (h8 : (fetch s).2 >>> 12 ≠ OP_RTI) :
    fetch s = ({ s with reg := Function.update s.reg R_PC ((s.reg R_PC + 1) % 65536) },
      s.memory (s.reg R_PC)) :=
  fetch_of_ne s (pc_ne_of_op s h0 h8)

theorem reg_update_flags_of_lt (reg : Nat → Nat) (r k : Nat) (hk : k < 9) :
    update_flags reg r k = reg k :=
  update_flags_of_ne reg r k (by show k ≠ 9; omega)

/-- C4: in a well-formed state whose next instruction is an ADD, with
DR = bits 11..9 and SR1 = bits 8..6, the step succeeds; afterwards
DR = (old SR1 + old reg[bits 2..0]) mod 2^16 when bit 5 is 0 and
DR = (old SR1 + the signed value of bits 4..0) mod 2^16 when bit 5 is 1; every
other general register and the whole memory are unchanged, and PC is the old
PC plus one, modulo 2^16. -/
theorem add_effect (sc : Bool) (s : State) (instr : Nat) (hwf : WF s)
    (hi : (fetch s).2 = instr) (hop : bitsOf instr 15 12 = OP_ADD) :
    ∃ s1, step sc s = .ok s1 ∧
      (bitsOf instr 5 5 = 0 →
        s1.reg (bitsOf instr 11 9) =
          (s.reg (bitsOf instr 8 6) + s.reg (bitsOf instr 2 0)) % 65536) ∧
      (bitsOf instr 5 5 = 1 →
        s1.reg (bitsOf instr 11 9) =
          (((s.reg (bitsOf instr 8 6) : Nat) : Int) + signedField instr 5) % 65536) ∧
      (∀ r, r < 8 → r ≠ bitsOf instr 11 9 → s1.reg r = s.reg r) ∧
      s1.memory = s.memory ∧
      s1.reg R_PC = (s.reg R_PC + 1) % 65536 := by
  have hlt : instr < 65536 := hi ▸ (fetch_lt s hwf.1).1
  rw [bitsOf_op _ hlt] at hop
  have hf := fetch_plain s (by rw [hi, hop]; decide) (by rw [hi, hop]; decide)
  rw [hf] at hi
  simp only at hi
  obtain ⟨h9, h6, h2⟩ := bitsOf_reg_lt instr
  rw [bitsOf_dr, bitsOf_sr1, bitsOf_sr2, bitsOf_bit5]
  refine ⟨op_ADD (fetch s).1 instr, ?_, ?_⟩
  · show exec sc (fetch s).1 (fetch s).2 = _
    rw [hf]; simp only; rw [hi]; exact exec_ADD _ _ _ hop
  rw [hf]
  unfold op_ADD
  dsimp only
  have hsr1 : Function.update s.reg R_PC ((s.reg R_PC + 1) % 65536) (instr >>> 6 &&& 7)
      = s.reg (instr >>> 6 &&& 7) := Function.update_noteq (by show _ ≠ 8; omega) _ _
  have hsr2 : Function.update s.reg R_PC ((s.reg R_PC + 1) % 65536) (instr &&& 7)
      = s.reg (instr &&& 7) := Function.update_noteq (by show _ ≠ 8; omega) _ _
  have hb : instr >>> 5 &&& 1 = 0 ∨ instr >>> 5 &&& 1 = 1 := by rw [and_1]; omega
  rcases hb with hb | hb
  · rw [if_neg (by rw [hb]; decide)]
    dsimp only
    refine ⟨?_, ?_, ?_, rfl, ?_⟩
    · intro _
      rw [reg_update_flags_of_lt _ _ _ (by omega), Function.update_same, hsr1, hsr2]
    · intro h1; rw [hb] at h1; exact absurd h1 (by decide)
    · intro r hr hne
      rw [reg_update_flags_of_lt _ _ _ (by omega), Function.update_noteq hne,
        Function.update_noteq (by show r ≠ 8; omega)]
    · rw [reg_update_flags_of_lt _ _ _ (by decide),
        Function.update_noteq (by show 8 ≠ _; omega), Function.update_same]
  · rw [if_pos (by rw [hb]; decide)]
    dsimp only
    refine ⟨?_, ?_, ?_, rfl, ?_⟩
    · intro h1; rw [hb] at h1; exact absurd h1 (by decide)
    · intro _
      rw [reg_update_flags_of_lt _ _ _ (by omega), Function.update_same, hsr1, imm5_signed]
      have h0 : 0 ≤ (((s.reg (instr >>> 6 &&& 7) : Nat) : Int) + signedField instr 5) % 65536 :=
        Int.emod_nonneg _ (by decide)
      omega
    · intro r hr hne
      rw [reg_update_flags_of_lt _ _ _ (by omega), Function.update_noteq hne,
        Function.update_noteq (by show r ≠ 8; omega)]
    · rw [reg_update_flags_of_lt _ _ _ (by decide),
        Function.update_noteq (by show 8 ≠ _; omega), Function.update_same]

theorem add_effect_witness :
    ∃ s1, step true (bootState [0x1025, 0xF025] 0 []) = .ok s1 ∧ s1.reg R_R0 = 5 ∧
      s1.reg R_COND = FL_POS := by
  obtain ⟨s1, hs, _, h1, _⟩ := add_effect true (bootState [0x1025, 0xF025] 0 []) 0x1025
    (WF_bootState _ _ _ (by decide) (by decide) (by decide)) rfl (by decide)
  have hc : s1.reg R_COND = flagOf (s1.reg 0) := by
    have hev : step true (bootState [0x1025, 0xF025] 0 [])
        = .ok (op_ADD (fetch (bootState [0x1025, 0xF025] 0 [])).1 0x1025) := rfl
    rw [hev] at hs; injection hs with hs; subst hs; decide
  have h5 : s1.reg R_R0 = 5 := by
    have h := h1 (by decide)
    have e1 : bitsOf 0x1025 11 9 = 0 := by decide
    have e2 : signedField 0x1025 5 = 5 := by decide
    have e3 : (bootState [0x1025, 0xF025] 0 []).reg (bitsOf 0x1025 8 6) = 0 := by decide
    rw [e1, e2, e3] at h
    have : ((s1.reg 0 : Nat) : Int) = 5 := by rw [h]; decide
    exact_mod_cast this
  refine ⟨s1, hs, h5, ?_⟩
  rw [hc, show s1.reg 0 = 5 from h5]; decide

/-- C5 (divergence): AND R0,R0,#-1 (0x503F) with R0 = 0xFFFF.  The code
masks the immediate with 0x7 and does not sign-extend it, so R0 becomes 7,
whereas `0xFFFF & sign_extend(0x1F, 5)` is 0xFFFF; ADD in the same mode does
use `sign_extend(instr & 0x1F, 5)`. -/
theorem and_immediate_not_sign_extended :
    (∃ s1, step true (bootState [0x503F] 0xFFFF []) = .ok s1 ∧ s1.reg R_R0 = 7) ∧
    0xFFFF &&& sign_extend (0x503F &&& 0x1f) 5 = 0xFFFF ∧
    (∃ s2, step true (bootState [0x103F] 0xFFFF []) = .ok s2 ∧
      s2.reg R_R0 = (0xFFFF + sign_extend (0x103F &&& 0x1f) 5) % 65536) :=
  ⟨⟨_, rfl, by decide⟩, by decide, ⟨_, rfl, by decide⟩⟩

/-! ## Control instructions -/

theorem step_eq_exec (sc : Bool) (s : State) : step sc s = exec sc (fetch s).1 (fetch s).2 := rfl

theorem reg_update_pc_of_lt (f : Nat → Nat) (v k : Nat) (hk : k < 8) :
    Function.update f R_PC v k = f k :=
  Function.update_noteq (by show k ≠ 8; omega) _ _

/-- C10: in a well-formed state whose next instruction is a BR fetched from
address `a`: the step succeeds; if bits 11..9 of the instruction and COND have
a common bit then PC = (a + 1 + signed value of bits 8..0) mod 2^16, if they
have none (in particular when bits 11..9 are 000) then PC = (a + 1) mod 2^16;
R0..R7 and COND are unchanged, and so is memory when `a` is not 0xFE00. -/
theorem br_effect (sc : Bool) (s : State) (instr : Nat) (hwf : WF s)
    (hi : (fetch s).2 = instr) (hop : bitsOf instr 15 12 = OP_BR) :
    ∃ s1, step sc s = .ok s1 ∧
      (bitsOf instr 11 9 &&& s.reg R_COND ≠ 0 →
        s1.reg R_PC = pcTarget (s.reg R_PC) instr 9) ∧
      (bitsOf instr 11 9 &&& s.reg R_COND = 0 → s1.reg R_PC = (s.reg R_PC + 1) % 65536) ∧
      (bitsOf instr 11 9 = 0 → s1.reg R_PC = (s.reg R_PC + 1) % 65536) ∧
      (∀ r, r < 8 → s1.reg r = s.reg r) ∧
      s1.reg R_COND = s.reg R_COND ∧
      (s.reg R_PC ≠ MR_KBSR → s1.memory = s.memory) := by
  have hlt : instr < 65536 := hi ▸ (fetch_lt s hwf.1).1
  rw [bitsOf_op _ hlt] at hop
  rw [bitsOf_dr]
  have hmem : s.reg R_PC ≠ MR_KBSR → (fetch s).1.memory = s.memory := by
    intro h; rw [fetch_of_ne s h]
  have hreg := fetch_reg s
  have hc : (fetch s).1.reg R_COND = s.reg R_COND := fetch_reg_of_ne s _ (by decide)
  have hpc := fetch_reg_pc s
  have hlo : ∀ r, r < 8 → (fetch s).1.reg r = s.reg r := by
    intro r hr; exact fetch_reg_of_ne s r (by show r ≠ 8; omega)
  refine ⟨op_BR (fetch s).1 instr, ?_, ?_⟩
  · rw [step_eq_exec, hi]; exact exec_BR _ _ _ hop
  generalize (fetch s).1 = t at *
  unfold op_BR
  dsimp only
  rw [hc]
  have hz : instr >>> 9 &&& 7 = 0 → instr >>> 9 &&& 7 &&& s.reg R_COND = 0 := by
    intro h; rw [h]; exact Nat.zero_and _
  by_cases hb : instr >>> 9 &&& 7 &&& s.reg R_COND ≠ 0
  · rw [if_pos hb]
    refine ⟨?_, ?_, ?_, ?_, ?_, ?_⟩
    · intro _
      dsimp only
      rw [Function.update_same, hpc, pc_offset_9]
    · intro h; exact absurd h hb
    · intro h; exact absurd (hz h) hb
    · intro r hr
      dsimp only
      rw [reg_update_pc_of_lt _ _ _ hr, hlo r hr]
    · dsimp only
      rw [cond_update_pc, hc]
    · exact hmem
  · rw [if_neg hb]
    have hb0 : instr >>> 9 &&& 7 &&& s.reg R_COND = 0 := by omega
    exact ⟨fun h => absurd h hb, fun _ => hpc, fun _ => hpc, hlo, hc, hmem⟩

theorem br_effect_witness :
    ∃ s1, step true (bootState [0x0402, 0x1021, 0x1021, 0xF025] 0 []) = .ok s1 ∧
      s1.reg R_PC = 0x3003 := by
  obtain ⟨s1, hs, h1, _⟩ := br_effect true (bootState [0x0402, 0x1021, 0x1021, 0xF025] 0 [])
    0x0402 (WF_bootState _ _ _ (by decide) (by decide) (by decide)) rfl (by decide)
  exact ⟨s1, hs, (h1 (by decide)).trans (by decide)⟩

/-- What JSR/JSRR does: `R7` receives the incremented PC first; then PC
receives the PC-relative target (bit 11 set) or the content of `BaseR`
(bit 11 clear), read after `R7` was written. -/
theorem jsr_effect (sc : Bool) (s : State) (instr : Nat) (hwf : WF s)
    (hi : (fetch s).2 = instr) (hop : bitsOf instr 15 12 = OP_JSR) :
    ∃ s1, step sc s = .ok s1 ∧
      s1.reg R_R7 = (s.reg R_PC + 1) % 65536 ∧
      (bitsOf instr 11 11 = 1 → s1.reg R_PC = pcTarget (s.reg R_PC) instr 11) ∧
      (bitsOf instr 11 11 = 0 → bitsOf instr 8 6 ≠ 7 → s1.reg R_PC = s.reg (bitsOf instr 8 6)) ∧
      (bitsOf instr 11 11 = 0 → bitsOf instr 8 6 = 7 → s1.reg R_PC = (s.reg R_PC + 1) % 65536) := by
  have hlt : instr < 65536 := hi ▸ (fetch_lt s hwf.1).1
  rw [bitsOf_op _ hlt] at hop
  rw [bitsOf_sr1, bitsOf_bit11]
  have hpc := fetch_reg_pc s
  have hlo : ∀ r, r < 8 → (fetch s).1.reg r = s.reg r := by
    intro r hr; exact fetch_reg_of_ne s r (by show r ≠ 8; omega)
  have h6 : instr >>> 6 &&& 7 < 8 := field_lt_8 _
  refine ⟨op_JSR (fetch s).1 instr, ?_, ?_⟩
  · rw [step_eq_exec, hi]; exact exec_JSR _ _ _ hop
  generalize (fetch s).1 = t at *
  unfold op_JSR
  dsimp only
  have h78 : Function.update t.reg R_R7 (t.reg R_PC) R_PC = t.reg R_PC :=
    Function.update_noteq (show R_PC ≠ R_R7 by decide) _ _
  have h87 : ∀ v, Function.update (Function.update t.reg R_R7 (t.reg R_PC)) R_PC v R_R7
      = t.reg R_PC := by
    intro v
    rw [Function.update_noteq (show R_R7 ≠ R_PC by decide), Function.update_same]
  have hb : instr >>> 11 &&& 1 = 0 ∨ instr >>> 11 &&& 1 = 1 := by rw [and_1]; omega
  rcases hb with hb | hb
  · rw [if_neg (by rw [hb]; decide)]
    refine ⟨?_, ?_, ?_, ?_⟩
    · dsimp only
      rw [h87, hpc]
    · intro h; rw [hb] at h; exact absurd h (by decide)
    · intro _ hne
      dsimp only
      rw [Function.update_same, Function.update_noteq hne, hlo _ h6]
    · intro _ he
      dsimp only
      rw [Function.update_same, he, Function.update_same, hpc]
  · rw [if_pos (by rw [hb]; decide)]
    refine ⟨?_, ?_, ?_, ?_⟩
    · dsimp only
      rw [h87, hpc]
    · intro _
      dsimp only
      rw [Function.update_same, h78, hpc, pc_offset_11]
    · intro h; rw [hb] at h; exact absurd h (by decide)
    · intro h; rw [hb] at h; exact absurd h (by decide)

/-- C9 (divergence): JSRR R7 (0x41C0) fetched from 0x3000 while R7 holds
0x4000.  The code writes R7 first and reads `BaseR` afterwards, so PC becomes
0x3001, not the 0x4000 that R7 held before the instruction; JMP R7 (0xC1C0)
in the same state does reach 0x4000. -/
theorem jsrr_r7_reads_new_r7 :
    (bootState [0x41C0] 0x4000 []).reg R_R7 = 0x4000 ∧
    (∃ s1, step true (bootState [0x41C0] 0x4000 []) = .ok s1 ∧
      s1.reg R_R7 = 0x3001 ∧ s1.reg R_PC = 0x3001 ∧ s1.reg R_PC ≠ 0x4000) ∧
    (∃ s2, step true (bootState [0xC1C0] 0x4000 []) = .ok s2 ∧ s2.reg R_PC = 0x4000) :=
  ⟨by decide, ⟨_, rfl, by decide, by decide, by decide⟩, ⟨_, rfl, by decide⟩⟩

/-! ## PC-relative addressing -/

/-- C3: in a well-formed state whose next instruction `instr` is fetched from
address `a`, every PC-relative instruction works on the address
`(a + 1 + signed offset field) mod 2^16`: LEA stores it in DR; LD reads it
(through `mem_read`) into DR; ST writes SR there; LDI reads the word there
and then the word that one points to; STI writes SR to the address read
there; a taken BR and JSR with bit 11 set make it the new PC. -/
theorem pc_relative (sc : Bool) (s : State) (instr : Nat) (hwf : WF s)
    (hi : (fetch s).2 = instr) :
    (bitsOf instr 15 12 = OP_LEA → ∃ s1, step sc s = .ok s1 ∧
      s1.reg (bitsOf instr 11 9) = pcTarget (s.reg R_PC) instr 9) ∧
    (bitsOf instr 15 12 = OP_LD → ∃ s1, step sc s = .ok s1 ∧
      s1.reg (bitsOf instr 11 9) = (mem_read (fetch s).1 (pcTarget (s.reg R_PC) instr 9)).2 ∧
      s1.memory = (mem_read (fetch s).1 (pcTarget (s.reg R_PC) instr 9)).1.memory) ∧
    (bitsOf instr 15 12 = OP_ST → ∃ s1, step sc s = .ok s1 ∧
      s1.memory =
        Function.update s.memory (pcTarget (s.reg R_PC) instr 9) (s.reg (bitsOf instr 11 9))) ∧
    (bitsOf instr 15 12 = OP_LDI → ∃ s1, step sc s = .ok s1 ∧
      s1.reg (bitsOf instr 11 9) =
        (mem_read (mem_read (fetch s).1 (pcTarget (s.reg R_PC) instr 9)).1
          (mem_read (fetch s).1 (pcTarget (s.reg R_PC) instr 9)).2).2) ∧
    (bitsOf instr 15 12 = OP_STI → ∃ s1, step sc s = .ok s1 ∧
      s1.memory =
        Function.update (mem_read (fetch s).1 (pcTarget (s.reg R_PC) instr 9)).1.memory
          (mem_read (fetch s).1 (pcTarget (s.reg R_PC) instr 9)).2
          (s.reg (bitsOf instr 11 9))) ∧
    (bitsOf instr 15 12 = OP_BR → bitsOf instr 11 9 &&& s.reg R_COND ≠ 0 →
      ∃ s1, step sc s = .ok s1 ∧ s1.reg R_PC = pcTarget (s.reg R_PC) instr 9) ∧
    (bitsOf instr 15 12 = OP_JSR → bitsOf instr 11 11 = 1 →
      ∃ s1, step sc s = .ok s1 ∧ s1.reg R_PC = pcTarget (s.reg R_PC) instr 11) := by
  have hlt : instr < 65536 := hi ▸ (fetch_lt s hwf.1).1
  have hpc := fetch_reg_pc s
  have hlo : ∀ r, r < 8 → (fetch s).1.reg r = s.reg r := by
    intro r hr; exact fetch_reg_of_ne s r (by show r ≠ 8; omega)
  have h9 : instr >>> 9 &&& 7 < 8 := field_lt_8 _
  have hT : ((fetch s).1.reg R_PC + sign_extend (instr &&& 0x1ff) 9) % 65536
      = pcTarget (s.reg R_PC) instr 9 := by rw [hpc, pc_offset_9]
  have hplain : instr >>> 12 ≠ OP_BR → instr >>> 12 ≠ OP_RTI → (fetch s).1.memory = s.memory := by
    intro h0 h8
    rw [fetch_plain s (by rw [hi]; exact h0) (by rw [hi]; exact h8)]
  refine ⟨?_, ?_, ?_, ?_, ?_, ?_, ?_⟩
  · intro hop
    rw [bitsOf_op _ hlt] at hop
    refine ⟨op_LEA (fetch s).1 instr, ?_, ?_⟩
    · rw [step_eq_exec, hi]; exact exec_LEA _ _ _ hop
    · rw [bitsOf_dr]
      unfold op_LEA
      dsimp only
      rw [reg_update_flags_of_lt _ _ _ (by omega), Function.update_same, hT]
  · intro hop
    rw [bitsOf_op _ hlt] at hop
    refine ⟨op_LD (fetch s).1 instr, ?_, ?_, ?_⟩
    · rw [step_eq_exec, hi]; exact exec_LD _ _ _ hop
    · rw [bitsOf_dr]
      unfold op_LD
      dsimp only
      rw [reg_update_flags_of_lt _ _ _ (by omega), Function.update_same, hT]
    · unfold op_LD
      dsimp only
      rw [hT]
  · intro hop
    rw [bitsOf_op _ hlt] at hop
    refine ⟨op_ST (fetch s).1 instr, ?_, ?_⟩
    · rw [step_eq_exec, hi]; exact exec_ST _ _ _ hop
    · rw [bitsOf_dr]
      unfold op_ST mem_write
      dsimp only
      rw [hT, hlo _ h9, hplain (by rw [hop]; decide) (by rw [hop]; decide)]
  · intro hop
    rw [bitsOf_op _ hlt] at hop
    refine ⟨op_LDI (fetch s).1 instr, ?_, ?_⟩
    · rw [step_eq_exec, hi]; exact exec_LDI _ _ _ hop
    · rw [bitsOf_dr]
      unfold op_LDI
      dsimp only
      rw [reg_update_flags_of_lt _ _ _ (by omega), Function.update_same, hT]
  · intro hop
    rw [bitsOf_op _ hlt] at hop
    refine ⟨op_STI (fetch s).1 instr, ?_, ?_⟩
    · rw [step_eq_exec, hi]; exact exec_STI _ _ _ hop
    · rw [bitsOf_dr]
      unfold op_STI mem_write
      dsimp only
      rw [hT, mem_read_reg, hlo _ h9]
  · intro hop hb
    rw [bitsOf_op _ hlt] at hop
    rw [bitsOf_dr, ← fetch_reg_of_ne s R_COND (by decide)] at hb
    refine ⟨op_BR (fetch s).1 instr, ?_, ?_⟩
    · rw [step_eq_exec, hi]; exact exec_BR _ _ _ hop
    · unfold op_BR
      dsimp only
      rw [if_pos hb]
      dsimp only
      rw [Function.update_same, hT]
  · intro hop hb
    obtain ⟨s1, hs, _, h1, _⟩ := jsr_effect sc s instr hwf hi hop
    exact ⟨s1, hs, h1 hb⟩

theorem pc_relative_witness :
    (∃ s1, step true (bootState [0xE003] 0 []) = .ok s1 ∧ s1.reg R_R0 = 0x3004) ∧
    (∃ s1, step true (bootState [0x2001, 0, 0x1234] 0 []) = .ok s1 ∧ s1.reg R_R0 = 0x1234) ∧
    (∃ s1, step true (bootState [0x3001] 0x0BAD []) = .ok s1 ∧ s1.memory 0x3002 = 0x0BAD) ∧
    (∃ s1, step true (bootState [0xA003, 0, 0, 0, 0x3005, 0xBEEF] 0 []) = .ok s1 ∧
      s1.reg R_R0 = 0xBEEF) ∧
    (∃ s1, step true (bootState [0xB001, 0, 0x4000] 0x0BAD []) = .ok s1 ∧
      s1.memory 0x4000 = 0x0BAD) ∧
    (∃ s1, step true (bootState [0x0402] 0 []) = .ok s1 ∧ s1.reg R_PC = 0x3003) ∧
    (∃ s1, step true (bootState [0x4802] 0 []) = .ok s1 ∧ s1.reg R_PC = 0x3003) := by
  refine ⟨?_, ?_, ?_, ?_, ?_, ?_, ?_⟩
  · obtain ⟨s1, hs, h⟩ := (pc_relative true (bootState [0xE003] 0 []) 0xE003
      (WF_bootState _ _ _ (by decide) (by decide) (by decide)) rfl).1 (by decide)
    exact ⟨s1, hs, h.trans (by decide)⟩
  · obtain ⟨s1, hs, h, _⟩ := (pc_relative true (bootState [0x2001, 0, 0x1234] 0 []) 0x2001
      (WF_bootState _ _ _ (by decide) (by decide) (by decide)) rfl).2.1 (by decide)
    exact ⟨s1, hs, h.trans (by decide)⟩
  · obtain ⟨s1, hs, h⟩ := (pc_relative true (bootState [0x3001] 0x0BAD []) 0x3001
      (WF_bootState _ _ _ (by decide) (by decide) (by decide)) rfl).2.2.1 (by decide)
    exact ⟨s1, hs, by rw [h]; decide⟩
  · obtain ⟨s1, hs, h⟩ := (pc_relative true (bootState [0xA003, 0, 0, 0, 0x3005, 0xBEEF] 0 [])
      0xA003 (WF_bootState _ _ _ (by decide) (by decide) (by decide)) rfl).2.2.2.1 (by decide)
    exact ⟨s1, hs, h.trans (by decide)⟩
  · obtain ⟨s1, hs, h⟩ := (pc_relative true (bootState [0xB001, 0, 0x4000] 0x0BAD []) 0xB001
      (WF_bootState _ _ _ (by decide) (by decide) (by decide)) rfl).2.2.2.2.1 (by decide)
    exact ⟨s1, hs, by rw [h]; decide⟩
  · obtain ⟨s1, hs, h⟩ := (pc_relative true (bootState [0x0402] 0 []) 0x0402
      (WF_bootState _ _ _ (by decide) (by decide) (by decide)) rfl).2.2.2.2.2.1
        (by decide) (by decide)
    exact ⟨s1, hs, h.trans (by decide)⟩
  · obtain ⟨s1, hs, h⟩ := (pc_relative true (bootState [0x4802] 0 []) 0x4802
      (WF_bootState _ _ _ (by decide) (by decide) (by decide)) rfl).2.2.2.2.2.2
        (by decide) (by decide)
    exact ⟨s1, hs, h.trans (by decide)⟩

/-! ## Image loading -/

theorem swap16_bytes (b0 b1 : Nat) (h0 : b0 < 256) (h1 : b1 < 256) :
    swap16 (b0 + 256 * b1) = b0 * 256 + b1 := by
  unfold swap16
  have hor : ((b0 + 256 * b1) <<< 8) ||| ((b0 + 256 * b1) >>> 8)
      = 2 ^ 8 * (b0 + 256 * b1) + (b0 + 256 * b1) / 2 ^ 8 := by
    have hlt : (b0 + 256 * b1) / 2 ^ 8 < 2 ^ 8 := by norm_num; omega
    rw [Nat.mul_add_lt_is_or hlt, Nat.shiftLeft_eq, Nat.shiftRight_eq_div_pow, Nat.mul_comm]
  have hdiv : (b0 + 256 * b1) / 2 ^ 8 = b1 := by norm_num; omega
  rw [hor, hdiv]
  norm_num
  omega

theorem fread_words_full (N : Nat) : ∀ (max_read : Nat) (memory : Nat → Nat) (p : Nat)
    (payload : List Nat), payload.length = 2 * N → N ≤ max_read →
    (fread_words max_read memory p payload).2 = N ∧
    (∀ i, i < N → (fread_words max_read memory p payload).1 (p + i)
      = payload.getD (2 * i) 0 + 256 * payload.getD (2 * i + 1) 0) ∧
    (∀ k, k < p ∨ p + N ≤ k → (fread_words max_read memory p payload).1 k = memory k) := by
  induction N with
  | zero =>
    intro max_read memory p payload hlen _
    have hnil : payload = [] := List.length_eq_zero.mp (by omega)
    subst hnil
    have h0 : fread_words max_read memory p [] = (memory, 0) := by
      cases max_read <;> rfl
    rw [h0]
    exact ⟨rfl, fun i hi => absurd hi (by omega), fun _ _ => rfl⟩
  | succ N ih =>
    intro max_read memory p payload hlen hmax
    match payload, hlen with
    | [], hlen => simp at hlen
    | [_], hlen => simp at hlen; omega
    | b0 :: b1 :: rest, hlen =>
      match max_read, hmax with
      | m + 1, hmax =>
        have hrest : rest.length = 2 * N := by simp at hlen; omega
        obtain ⟨hc, hv, hf⟩ := ih m (Function.update memory p (b0 + 256 * b1)) (p + 1) rest
          hrest (by omega)
        have he : fread_words (m + 1) memory p (b0 :: b1 :: rest)
            = ((fread_words m (Function.update memory p (b0 + 256 * b1)) (p + 1) rest).1,
               (fread_words m (Function.update memory p (b0 + 256 * b1)) (p + 1) rest).2 + 1) := rfl
        rw [he]
        refine ⟨by simp [hc], ?_, ?_⟩
        · intro i hi
          cases i with
          | zero =>
            show (fread_words m (Function.update memory p (b0 + 256 * b1)) (p + 1) rest).1 p = _
            rw [hf p (Or.inl (by omega)), Function.update_same]
            rfl
          | succ j =>
            dsimp only
            have := hv j (by omega)
            rw [show p + (j + 1) = p + 1 + j by omega, this]
            rw [show 2 * (j + 1) = 2 * j + 2 by omega]
            rfl
        · intro k hk
          dsimp only
          rw [hf k (by omega), Function.update_noteq (by omega)]

theorem swap_loop_spec (N : Nat) : ∀ (memory : Nat → Nat) (p : Nat),
    (∀ i, i < N → swap_loop N memory p (p + i) = swap16 (memory (p + i))) ∧
    (∀ k, k < p ∨ p + N ≤ k → swap_loop N memory p k = memory k) := by
  induction N with
  | zero =>
    intro memory p
    exact ⟨fun i hi => absurd hi (by omega), fun _ _ => rfl⟩
  | succ N ih =>
    intro memory p
    obtain ⟨hv, hf⟩ := ih (Function.update memory p (swap16 (memory p))) (p + 1)
    have he : swap_loop (N + 1) memory p
        = swap_loop N (Function.update memory p (swap16 (memory p))) (p + 1) := rfl
    rw [he]
    refine ⟨?_, ?_⟩
    · intro i hi
      cases i with
      | zero =>
        show swap_loop N (Function.update memory p (swap16 (memory p))) (p + 1) p = _
        rw [hf p (Or.inl (by omega)), Function.update_same]
        rfl
      | succ j =>
        rw [show p + (j + 1) = p + 1 + j by omega, hv j (by omega),
          Function.update_noteq (by omega)]
    · intro k hk
      rw [hf k (by omega), Function.update_noteq (by omega)]

/-- Loading an image whose origin is not 0: for a file made of the big-endian
origin word `o = b0 * 256 + b1`, `1 ≤ o`, and a payload of `N` big-endian
words with `o + N ≤ 0x10000`, `read_image_file` leaves
`memory[o + i] = payload[2i] * 256 + payload[2i + 1]` for every `i < N`. -/
theorem read_image_file_loads (memory : Nat → Nat) (b0 b1 : Nat) (payload : List Nat) (N : Nat)
    (h0 : b0 < 256) (h1 : b1 < 256) (hp : ∀ b ∈ payload, b < 256)
    (hlen : payload.length = 2 * N) (ho : 1 ≤ b0 * 256 + b1)
    (hfit : b0 * 256 + b1 + N ≤ 65536) :
    ∃ m, read_image_file memory (b0 :: b1 :: payload) = some m ∧
      ∀ i, i < N →
        m (b0 * 256 + b1 + i) = payload.getD (2 * i) 0 * 256 + payload.getD (2 * i + 1) 0 := by
  have hmax : (MEMORY_MAX - (b0 * 256 + b1)) % 65536 = 65536 - (b0 * 256 + b1) := by
    show (65536 - (b0 * 256 + b1)) % 65536 = _
    omega
  obtain ⟨hc, hv, _⟩ := fread_words_full N (65536 - (b0 * 256 + b1)) memory (b0 * 256 + b1)
    payload hlen (by omega)
  refine ⟨swap_loop N
    (fread_words (65536 - (b0 * 256 + b1)) memory (b0 * 256 + b1) payload).1 (b0 * 256 + b1),
    ?_, ?_⟩
  · unfold read_image_file
    dsimp only
    rw [swap16_bytes b0 b1 h0 h1, hmax, hc]
  · intro i hi
    rw [(swap_loop_spec N _ _).1 i hi, hv i hi]
    have hget : ∀ j, payload.getD j 0 < 256 := by
      intro j
      rw [List.getD_eq_getElem?_getD]
      cases h : payload[j]? with
      | none => simp
      | some v => simp only [Option.getD_some]; exact hp v (List.getElem?_mem h)
    exact swap16_bytes _ _ (hget _) (hget _)

/-- C6 (divergence): an image with origin 0.  `max_read` is the `uint16_t`
value of `MEMORY_MAX - 0`, which is 0, so no payload word is read:
`memory[0]` keeps its old content 0 instead of receiving 0x1234.  The same
payload with origin 0x3000 is loaded. -/
theorem read_image_file_origin_zero :
    (∃ m, read_image_file (fun _ => 0) [0x00, 0x00, 0x12, 0x34] = some m ∧ m 0 = 0 ∧
      m 0 ≠ 0x12 * 256 + 0x34) ∧
    (∃ m, read_image_file (fun _ => 0) [0x30, 0x00, 0x12, 0x34] = some m ∧
      m 0x3000 = 0x12 * 256 + 0x34) :=
  ⟨⟨_, rfl, by decide, by decide⟩, ⟨_, rfl, by decide⟩⟩

/-! ## Illegal opcodes -/


theorem op_TRAP_not_abort (sc : Bool) (s : State) (instr : Nat) :
    op_TRAP sc s instr ≠ .error Fault.abort := by
  rcases trap_vector_cases (instr &&& 0xff) with hv | hv | hv | hv | hv | hv | hv
  · rw [trap_GETC _ _ _ hv]; simp
  · rw [trap_OUT _ _ _ hv]; simp
  · rw [trap_PUTS _ _ _ hv]; unfold trap_puts; split <;> simp
  · rw [trap_IN _ _ _ hv]; simp
  · rw [trap_PUTSP _ _ _ hv]; unfold trap_putsp; split <;> simp
  · rw [trap_HALT _ _ _ hv]; simp
  · rw [trap_unknown _ _ _ hv]; simp

/-- C11: in a well-formed state, executing one instruction calls `abort()`
exactly when the top four bits of the fetched word are 1000 (RTI) or 1101
(reserved).  With any other opcode the step does not abort, whatever the
operand bits; it yields a next state, except that the string traps PUTS and
PUTSP may instead run off the end of memory; in particular a TRAP with an
unknown vector yields a next state. -/
theorem abort_iff_illegal (sc : Bool) (s : State) (instr : Nat) (hwf : WF s)
    (hi : (fetch s).2 = instr) :
    (step sc s = .error Fault.abort ↔
      (bitsOf instr 15 12 = OP_RTI ∨ bitsOf instr 15 12 = OP_RES)) ∧
    (bitsOf instr 15 12 ≠ OP_RTI → bitsOf instr 15 12 ≠ OP_RES →
      (bitsOf instr 15 12 = OP_TRAP → bitsOf instr 7 0 ≠ TRAP_PUTS ∧ bitsOf instr 7 0 ≠ TRAP_PUTSP) →
      ∃ s1, step sc s = .ok s1) := by
  have hlt : instr < 65536 := hi ▸ (fetch_lt s hwf.1).1
  have h16 : ¬ 16 ≤ instr >>> 12 := by rw [Nat.shiftRight_eq_div_pow]; norm_num; omega
  rw [bitsOf_op _ hlt, bitsOf_vect, step_eq_exec, hi]
  generalize (fetch s).1 = t
  rcases exec_cases sc t instr with ⟨ho, he⟩ | ⟨ho, he⟩ | ⟨ho, he⟩ | ⟨ho, he⟩ | ⟨ho, he⟩ |
    ⟨ho, he⟩ | ⟨ho, he⟩ | ⟨ho, he⟩ | ⟨ho, he⟩ | ⟨ho, he⟩ | ⟨ho, he⟩ | ⟨ho, he⟩ | ⟨ho, he⟩ |
    ⟨ho, he⟩ | ⟨ho, he⟩
  all_goals rw [he]
  case inr.inr.inr.inr.inr.inr.inr.inr.inr.inr.inr.inr.inr.inl =>
    refine ⟨⟨fun h => absurd h (op_TRAP_not_abort sc t instr), fun h => ?_⟩, ?_⟩
    · rw [ho] at h; exact absurd h (by decide)
    · intro _ _ hv
      obtain ⟨h1, h2⟩ := hv ho
      rcases trap_vector_cases (instr &&& 0xff) with hv | hv | hv | hv | hv | hv | hv
      · rw [trap_GETC _ _ _ hv]; exact ⟨_, rfl⟩
      · rw [trap_OUT _ _ _ hv]; exact ⟨_, rfl⟩
      · exact absurd hv h1
      · rw [trap_IN _ _ _ hv]; exact ⟨_, rfl⟩
      · exact absurd hv h2
      · rw [trap_HALT _ _ _ hv]; exact ⟨_, rfl⟩
      · rw [trap_unknown _ _ _ hv]; exact ⟨_, rfl⟩
  case inr.inr.inr.inr.inr.inr.inr.inr.inr.inr.inr.inr.inr.inr =>
    rcases ho with ho | ho | ho
    · exact ⟨⟨fun _ => Or.inl ho, fun _ => rfl⟩, fun h => absurd ho h⟩
    · exact ⟨⟨fun _ => Or.inr ho, fun _ => rfl⟩, fun _ h => absurd ho h⟩
    · exact absurd ho h16
  all_goals
    refine ⟨⟨fun h => absurd h (by simp), fun h => ?_⟩, fun _ _ _ => ⟨_, rfl⟩⟩
    rw [ho] at h; exact absurd h (by decide)

theorem abort_iff_illegal_witness :
    step true (bootState [0x8000] 0 []) = .error Fault.abort ∧
    step true (bootState [0xD000] 0 []) = .error Fault.abort ∧
    ∃ s1, step true (bootState [0xF0FF] 0 []) = .ok s1 :=
  ⟨(abort_iff_illegal true (bootState [0x8000] 0 []) 0x8000
      (WF_bootState _ _ _ (by decide) (by decide) (by decide)) rfl).1.2 (Or.inl (by decide)),
   (abort_iff_illegal true (bootState [0xD000] 0 []) 0xD000
      (WF_bootState _ _ _ (by decide) (by decide) (by decide)) rfl).1.2 (Or.inr (by decide)),
   (abort_iff_illegal true (bootState [0xF0FF] 0 []) 0xF0FF
      (WF_bootState _ _ _ (by decide) (by decide) (by decide)) rfl).2
        (by decide) (by decide) (fun _ => ⟨by decide, by decide⟩)⟩

/-! ## The memory-mapped keyboard -/


theorem toU16_natCast (n : Nat) (h : n < 65536) : toU16 (n : Int) = n := by
  unfold toU16; omega

/-- C12: `mem_read(address)` at any address other than 0xFE00 (KBDR 0xFE02
included) returns `memory[address]` and changes nothing.  At 0xFE00: if a key
is pending and the next input byte is `b`, it returns 0x8000 and leaves
`memory[0xFE00] = 0x8000`, `memory[0xFE02] = b`, the input without that one
byte, and the rest of memory as it was; if no key is pending it returns 0 and
leaves `memory[0xFE00] = 0` and the rest of memory, `memory[0xFE02]` included,
and the input as they were. -/
theorem mem_read_spec (s : State) :
    (∀ a, a ≠ MR_KBSR → mem_read s a = (s, s.memory a)) ∧
    (∀ b rest, s.keys 0 = true → s.input = b :: rest → b < 256 →
      (mem_read s MR_KBSR).2 = 0x8000 ∧
      (mem_read s MR_KBSR).1.memory MR_KBSR = 0x8000 ∧
      (mem_read s MR_KBSR).1.memory MR_KBDR = b ∧
      (mem_read s MR_KBSR).1.input = rest ∧
      (∀ a, a ≠ MR_KBSR → a ≠ MR_KBDR → (mem_read s MR_KBSR).1.memory a = s.memory a)) ∧
    (s.keys 0 = false →
      (mem_read s MR_KBSR).2 = 0 ∧
      (mem_read s MR_KBSR).1.memory MR_KBSR = 0 ∧
      (∀ a, a ≠ MR_KBSR → (mem_read s MR_KBSR).1.memory a = s.memory a) ∧
      (mem_read s MR_KBSR).1.input = s.input) := by
  refine ⟨?_, ?_, ?_⟩
  · intro a ha
    unfold mem_read; rw [if_neg ha]
  · intro b rest hk hin hb
    have hsd : MR_KBSR ≠ MR_KBDR := by decide
    have he : mem_read s MR_KBSR =
        ({ s with
            memory := Function.update (Function.update s.memory MR_KBSR (1 <<< 15)) MR_KBDR
              (toU16 (b : Int)),
            input := rest, keys := fun n => s.keys (n + 1) },
          Function.update (Function.update s.memory MR_KBSR (1 <<< 15)) MR_KBDR
            (toU16 (b : Int)) MR_KBSR) := by
      unfold mem_read check_key getchar
      simp [hk, hin]
    rw [he]
    dsimp only
    refine ⟨?_, ?_, ?_, rfl, ?_⟩
    · rw [Function.update_noteq hsd, Function.update_same]; rfl
    · rw [Function.update_noteq hsd, Function.update_same]; rfl
    · rw [Function.update_same, toU16_natCast b (by omega)]
    · intro a h1 h2
      rw [Function.update_noteq h2, Function.update_noteq h1]
  · intro hk
    have he : mem_read s MR_KBSR =
        ({ s with memory := Function.update s.memory MR_KBSR 0,
                  keys := fun n => s.keys (n + 1) },
          Function.update s.memory MR_KBSR 0 MR_KBSR) := by
      unfold mem_read check_key
      simp [hk]
    rw [he]
    dsimp only
    refine ⟨Function.update_same _ _ _, Function.update_same _ _ _, ?_, rfl⟩
    intro a h1
    rw [Function.update_noteq h1]

theorem mem_read_spec_witness :
    (mem_read (bootOn (image []) 0 [0x41] true) MR_KBSR).2 = 0x8000 ∧
    (mem_read (bootOn (image []) 0 [0x41] true) MR_KBSR).1.memory MR_KBDR = 0x41 ∧
    (mem_read (bootOn (image []) 0 [0x41] true) MR_KBSR).1.input = [] ∧
    (mem_read (bootOn (image []) 0 [0x41] false) MR_KBSR).2 = 0 ∧
    (mem_read (bootOn (image []) 0 [0x41] false) MR_KBSR).1.input = [0x41] ∧
    mem_read (bootOn (image []) 0 [0x41] true) MR_KBDR
      = (bootOn (image []) 0 [0x41] true, 0) := by
  obtain ⟨h1, _, h3, h4, _⟩ := (mem_read_spec (bootOn (image []) 0 [0x41] true)).2.1
    0x41 [] rfl rfl (by decide)
  obtain ⟨h5, _, _, h6⟩ := (mem_read_spec (bootOn (image []) 0 [0x41] false)).2.2 rfl
  exact ⟨h1, h3, h4, h5, h6,
    (mem_read_spec (bootOn (image []) 0 [0x41] true)).1 MR_KBDR (by decide)⟩

/-! ## Indirect load -/


/-- C13: in a well-formed state whose next instruction is an LDI fetched from
address `a`, with `p = (a + 1 + signed value of bits 8..0) mod 2^16`, when
neither `p` nor `memory[p]` is 0xFE00: the step succeeds, and afterwards
DR (bits 11..9) holds `memory[memory[p]]`, COND is the flag of that value, and
memory is unchanged. -/
theorem ldi_effect (sc : Bool) (s : State) (instr : Nat) (hwf : WF s)
    (hi : (fetch s).2 = instr) (hop : bitsOf instr 15 12 = OP_LDI)
    (hp : pcTarget (s.reg R_PC) instr 9 ≠ MR_KBSR)
    (hq : s.memory (pcTarget (s.reg R_PC) instr 9) ≠ MR_KBSR) :
    ∃ s1, step sc s = .ok s1 ∧
      s1.reg (bitsOf instr 11 9) = s.memory (s.memory (pcTarget (s.reg R_PC) instr 9)) ∧
      s1.reg R_COND = flagOf (s.memory (s.memory (pcTarget (s.reg R_PC) instr 9))) ∧
      s1.memory = s.memory := by
  have hlt : instr < 65536 := hi ▸ (fetch_lt s hwf.1).1
  rw [bitsOf_op _ hlt] at hop
  have hf := fetch_plain s (by rw [hi, hop]; decide) (by rw [hi, hop]; decide)
  have h9 : instr >>> 9 &&& 7 < 8 := field_lt_8 _
  rw [bitsOf_dr]
  refine ⟨op_LDI (fetch s).1 instr, ?_, ?_⟩
  · rw [step_eq_exec, hi]; exact exec_LDI _ _ _ hop
  have hT : ((fetch s).1.reg R_PC + sign_extend (instr &&& 0x1ff) 9) % 65536
      = pcTarget (s.reg R_PC) instr 9 := by rw [fetch_reg_pc, pc_offset_9]
  have hmem : (fetch s).1.memory = s.memory := by rw [hf]
  unfold op_LDI
  dsimp only
  rw [hT, mem_read_of_ne _ _ hp]
  dsimp only
  rw [hmem, mem_read_of_ne _ _ hq]
  dsimp only
  rw [hmem]
  refine ⟨?_, ?_, rfl⟩
  · rw [reg_update_flags_of_lt _ _ _ (by omega), Function.update_same]
  · rw [update_flags_cond, Function.update_same]
    rw [Function.update_same]; exact hwf.1 _

theorem ldi_effect_witness :
    ∃ s1, step true (bootState [0xA003, 0, 0, 0, 0x3005, 0xBEEF] 0 []) = .ok s1 ∧
      s1.reg R_R0 = 0xBEEF ∧ s1.reg R_COND = FL_NEG := by
  obtain ⟨s1, hs, h1, h2, _⟩ := ldi_effect true
    (bootState [0xA003, 0, 0, 0, 0x3005, 0xBEEF] 0 []) 0xA003
    (WF_bootState _ _ _ (by decide) (by decide) (by decide)) rfl (by decide) (by decide)
    (by decide)
  exact ⟨s1, hs, h1.trans (by decide), h2.trans (by decide)⟩

/-! ## Character input traps -/


theorem getchar_cons (s : State) (b : Nat) (rest : List Nat) (h : s.input = b :: rest) :
    getchar s = ({ s with input := rest }, (b : Int)) := by
  unfold getchar; rw [h]

theorem putcByte_toChar (sc : Bool) (c : Int) : putcByte (toChar sc c) = (c % 256).toNat := by
  unfold putcByte toChar
  cases sc
  · simp only [Bool.false_eq_true, if_false]; omega
  · simp only [if_true]; omega

theorem toU16_toChar (sc : Bool) (b : Nat) (hb : b < 256) :
    toU16 (toChar sc (b : Int)) = if sc = true ∧ 128 ≤ b then 0xFF00 + b else b := by
  unfold toU16 toChar
  cases sc
  · simp only [Bool.false_eq_true, if_false, false_and]; omega
  · simp only [if_true, true_and]; split <;> omega

/-- What the traps GETC and IN do with a next input byte `b`: GETC leaves
`R0 = b` and writes nothing; IN writes the prompt and the byte, and leaves in
`R0` the byte converted to `char` and then to `uint16_t`, which is `b` when
`char` is unsigned or `b < 128`, and `0xFF00 + b` when `char` is signed and
`b ≥ 128`; both set COND from `R0` and consume the byte. -/
theorem getc_in_effect (sc : Bool) (s : State) (instr b : Nat) (rest : List Nat) (hwf : WF s)
    (hi : (fetch s).2 = instr) (hop : bitsOf instr 15 12 = OP_TRAP)
    (hin : s.input = b :: rest) (hb : b < 256) :
    (bitsOf instr 7 0 = TRAP_GETC → ∃ s1, step sc s = .ok s1 ∧
      s1.reg R_R0 = b ∧ s1.reg R_COND = flagOf b ∧ s1.output = s.output ∧ s1.input = rest) ∧
    (bitsOf instr 7 0 = TRAP_IN → ∃ s1, step sc s = .ok s1 ∧
      s1.reg R_R0 = (if sc = true ∧ 128 ≤ b then 0xFF00 + b else b) ∧
      s1.reg R_COND = flagOf (s1.reg R_R0) ∧
      s1.output = s.output ++ bytes "Enter a character: " ++ [b] ∧ s1.input = rest) := by
  have hlt : instr < 65536 := hi ▸ (fetch_lt s hwf.1).1
  rw [bitsOf_op _ hlt] at hop
  have hf := fetch_plain s (by rw [hi, hop]; decide) (by rw [hi, hop]; decide)
  rw [bitsOf_vect, step_eq_exec, hi, exec_TRAP _ _ _ hop, hf]
  dsimp only
  refine ⟨?_, ?_⟩
  · intro hv
    rw [trap_GETC _ _ _ hv]
    refine ⟨_, rfl, ?_⟩
    unfold trap_getc
    dsimp only
    rw [getchar_cons _ b rest]
    · dsimp only
      rw [toU16_natCast b (by omega)]
      refine ⟨?_, ?_, rfl, rfl⟩
      · rw [reg_update_flags_of_lt _ _ _ (by decide), Function.update_same]
      · rw [update_flags_cond, Function.update_same]
        rw [Function.update_same]; omega
    · exact hin
  · intro hv
    rw [trap_IN _ _ _ hv]
    refine ⟨_, rfl, ?_⟩
    unfold trap_in
    dsimp only
    rw [getchar_cons _ b rest]
    · dsimp only
      rw [putcByte_toChar, toU16_toChar sc b hb]
      refine ⟨?_, ?_, ?_, rfl⟩
      · rw [reg_update_flags_of_lt _ _ _ (by decide), Function.update_same]
      · rw [reg_update_flags_of_lt _ _ R_R0 (by decide), update_flags_cond, Function.update_same]
        rw [Function.update_same]; split <;> omega
      · have : ((b : Int) % 256).toNat = b := by omega
        rw [this]
    · exact hin

/-- C14 (divergence): TRAP IN (0xF023) with next input byte 0x80 where plain
`char` is signed.  The byte passes through `char c`, so `(uint16_t)c` is
0xFF80 and COND is NEG, not `R0 = 0x0080` with a zero high byte; TRAP GETC
(0xF020), which converts the `int` from `getchar` directly, does leave 0x0080
and COND = POS. -/
theorem trap_in_sign_extends :
    (∃ s1, step true (bootState [0xF023] 0 [0x80]) = .ok s1 ∧
      s1.reg R_R0 = 0xFF80 ∧ s1.reg R_COND = FL_NEG ∧
      s1.output = bytes "Enter a character: " ++ [0x80]) ∧
    (∃ s2, step true (bootState [0xF020] 0 [0x80]) = .ok s2 ∧
      s2.reg R_R0 = 0x0080 ∧ s2.reg R_COND = FL_POS ∧ s2.output = []) :=
  ⟨⟨_, rfl, by decide, by decide, by decide⟩, ⟨_, rfl, by decide, by decide, by decide⟩⟩

/-! ## String output -/


theorem putcByte_word (sc : Bool) (w : Nat) : putcByte (toChar sc (w : Int)) = w % 256 := by
  rw [putcByte_toChar]; omega

/-- The loop of PUTS on a string of `n` non-zero words from `c` followed by a
zero word, all inside the array: it appends the low bytes of the `n` words. -/
theorem puts_loop_spec (sc : Bool) (memory : Nat → Nat) (n : Nat) :
    ∀ (c left : Nat) (out : List Nat), (∀ i, i < n → memory (c + i) ≠ 0) →
      memory (c + n) = 0 → n < left →
      puts_loop sc left memory c out
        = .ok (out ++ (List.range n).map (fun i => memory (c + i) % 256)) := by
  induction n with
  | zero =>
    intro c left out _ hz hl
    match left, hl with
    | l + 1, _ =>
      have h0 : memory c = 0 := hz
      simp [puts_loop, h0]
  | succ n ih =>
    intro c left out hnz hz hl
    match left, hl with
    | l + 1, hl =>
      have h0 : memory c ≠ 0 := hnz 0 (by omega)
      have hrec := ih (c + 1) l (out ++ [putcByte (toChar sc (memory c : Nat))])
        (fun i hi => by rw [show c + 1 + i = c + (i + 1) by omega]; exact hnz (i + 1) (by omega))
        (by rw [show c + 1 + n = c + (n + 1) by omega]; exact hz) (by omega)
      have hunf : puts_loop sc (l + 1) memory c out
          = puts_loop sc l memory (c + 1) (out ++ [putcByte (toChar sc (memory c : Nat))]) := by
        rw [puts_loop, if_pos h0]
      rw [hunf, hrec, putcByte_word, List.range_succ_eq_map, List.map_cons, List.map_map,
        List.append_assoc]
      congr 2
      simp only [List.singleton_append, Nat.add_zero, List.cons.injEq, true_and]
      apply List.map_congr_left
      intro i _
      simp only [Function.comp_apply]
      rw [show c + 1 + i = c + (i + 1) by omega]

/-- C15: in a well-formed state whose next instruction is TRAP PUTS, if `z` is
the least address with `R0 ≤ z ≤ 0xFFFF` holding a zero word, the step
succeeds and appends to standard output exactly the low bytes of
`memory[R0], ..., memory[z - 1]`, in that order (nothing when `z = R0`);
memory, R0..R6 and COND are unchanged. -/
theorem puts_effect (sc : Bool) (s : State) (instr z : Nat) (hwf : WF s)
    (hi : (fetch s).2 = instr) (hop : bitsOf instr 15 12 = OP_TRAP)
    (hv : bitsOf instr 7 0 = TRAP_PUTS) (hz1 : s.reg R_R0 ≤ z) (hz2 : z ≤ 0xFFFF)
    (hz : s.memory z = 0) (hleast : ∀ k, s.reg R_R0 ≤ k → k < z → s.memory k ≠ 0) :
    ∃ s1, step sc s = .ok s1 ∧
      s1.output = s.output ++
        (List.range (z - s.reg R_R0)).map (fun i => s.memory (s.reg R_R0 + i) % 256) ∧
      s1.memory = s.memory ∧
      (∀ r, r < 7 → s1.reg r = s.reg r) ∧
      s1.reg R_COND = s.reg R_COND := by
  have hlt : instr < 65536 := hi ▸ (fetch_lt s hwf.1).1
  rw [bitsOf_op _ hlt] at hop
  rw [bitsOf_vect] at hv
  have hf := fetch_plain s (by rw [hi, hop]; decide) (by rw [hi, hop]; decide)
  have hloop := puts_loop_spec sc s.memory (z - s.reg R_R0) (s.reg R_R0)
    (MEMORY_MAX - s.reg R_R0) s.output
    (fun i hi => hleast _ (by omega) (by omega))
    (by rw [show s.reg R_R0 + (z - s.reg R_R0) = z by omega]; exact hz)
    (by show z - s.reg R_R0 < 65536 - s.reg R_R0; omega)
  have hr0 : Function.update (Function.update s.reg R_PC ((s.reg R_PC + 1) % 65536)) R_R7
      (Function.update s.reg R_PC ((s.reg R_PC + 1) % 65536) R_PC) R_R0 = s.reg R_R0 := by
    rw [Function.update_noteq (show R_R0 ≠ R_R7 by decide),
      Function.update_noteq (show R_R0 ≠ R_PC by decide)]
  rw [step_eq_exec, hi, exec_TRAP _ _ _ hop, trap_PUTS _ _ _ hv, hf]
  unfold trap_puts
  dsimp only
  rw [hr0, hloop]
  refine ⟨_, rfl, rfl, rfl, ?_, ?_⟩
  · intro r hr
    dsimp only
    rw [Function.update_noteq (by show r ≠ 7; omega),
      Function.update_noteq (by show r ≠ 8; omega)]
  · dsimp only
    rw [cond_update_r7, cond_update_pc]

theorem puts_effect_witness :
    ∃ s1, step true (bootState [0xF022, 0, 0, 0, 0x0048, 0x0069, 0x0000] 0x3004 []) = .ok s1 ∧
      s1.output = bytes "Hi" := by
  obtain ⟨s1, hs, h, _⟩ := puts_effect true
    (bootState [0xF022, 0, 0, 0, 0x0048, 0x0069, 0x0000] 0x3004 []) 0xF022 0x3006
    (WF_bootState _ _ _ (by decide) (by decide) (by decide)) rfl (by decide) (by decide)
    (by decide) (by decide) (by decide)
    (by
      intro k h1 h2
      have h1 : 0x3004 ≤ k := h1
      have hk : k = 0x3004 ∨ k = 0x3005 := by omega
      rcases hk with rfl | rfl <;> decide)
  exact ⟨s1, hs, h.trans (by decide)⟩

/-! ## Trap dispatch -/


theorem WF_bootOn (memory : Nat → Nat) (r : Nat) (inp : List Nat) (key : Bool)
    (hm : ∀ a, memory a < 65536) (hr : r < 65536) (hi : ∀ b ∈ inp, b < 256) :
    WF (bootOn memory r inp key) := by
  refine ⟨hm, ?_, hi⟩
  intro k
  show Function.update (Function.update (fun _ => r) R_COND FL_ZRO) R_PC PC_START k < 65536
  by_cases h8 : k = R_PC
  · rw [h8, Function.update_same]; decide
  · rw [Function.update_noteq h8]
    by_cases h9 : k = R_COND
    · rw [h9, Function.update_same]; decide
    · rw [Function.update_noteq h9]; exact hr

theorem unterminated_lt (w : Nat) (hw : w < 65536) (a : Nat) : unterminated w a < 65536 := by
  unfold unterminated; split
  · exact hw
  · decide

/-- The loops of PUTS and PUTSP end inside the array when a zero word lies
between the pointer and the end of the array. -/
theorem string_loops_end (sc : Bool) (memory : Nat → Nat) (left : Nat) :
    ∀ (c : Nat) (out : List Nat), (∃ z, c ≤ z ∧ z < c + left ∧ memory z = 0) →
      (∃ o, puts_loop sc left memory c out = .ok o) ∧
      (∃ o, putsp_loop sc left memory c out = .ok o) := by
  induction left with
  | zero =>
    intro c out ⟨z, h1, h2, _⟩
    omega
  | succ l ih =>
    intro c out ⟨z, h1, h2, hz⟩
    by_cases h0 : memory c = 0
    · exact ⟨⟨out, by simp [puts_loop, h0]⟩, ⟨out, by simp [putsp_loop, h0]⟩⟩
    · have hne : z ≠ c := fun h => h0 (h ▸ hz)
      have hex : ∃ z, c + 1 ≤ z ∧ z < c + 1 + l ∧ memory z = 0 := ⟨z, by omega, by omega, hz⟩
      refine ⟨?_, ?_⟩
      · rw [puts_loop, if_pos h0]
        exact (ih (c + 1) _ hex).1
      · rw [putsp_loop, if_pos h0]
        exact (ih (c + 1) _ hex).2

theorem update_flags_r0_r7 (reg : Nat → Nat) (v : Nat) :
    update_flags (Function.update reg R_R0 v) R_R0 R_R7 = reg R_R7 := by
  rw [reg_update_flags_of_lt _ _ _ (by decide),
    Function.update_noteq (show R_R7 ≠ R_R0 by decide)]

/-- Every trap routine that completes leaves `R7` as it found it. -/
theorem op_TRAP_r7 (sc : Bool) (t s1 : State) (instr : Nat)
    (h : op_TRAP sc t instr = .ok s1) : s1.reg R_R7 = t.reg R_PC := by
  rcases trap_vector_cases (instr &&& 0xff) with hv | hv | hv | hv | hv | hv | hv
  · rw [trap_GETC _ _ _ hv] at h
    injection h with h; subst h
    unfold trap_getc getchar
    dsimp only
    split <;> (dsimp only; rw [update_flags_r0_r7, Function.update_same])
  · rw [trap_OUT _ _ _ hv] at h
    injection h with h; subst h
    simp only [trap_out, trap_halt, Function.update_same]
  · rw [trap_PUTS _ _ _ hv] at h
    unfold trap_puts at h
    split at h
    · injection h with h; subst h
      simp only [trap_out, trap_halt, Function.update_same]
    · exact absurd h (by simp)
  · rw [trap_IN _ _ _ hv] at h
    injection h with h; subst h
    unfold trap_in getchar
    dsimp only
    split <;> (dsimp only; rw [update_flags_r0_r7, Function.update_same])
  · rw [trap_PUTSP _ _ _ hv] at h
    unfold trap_putsp at h
    split at h
    · injection h with h; subst h
      simp only [trap_out, trap_halt, Function.update_same]
    · exact absurd h (by simp)
  · rw [trap_HALT _ _ _ hv] at h
    injection h with h; subst h
    simp only [trap_out, trap_halt, Function.update_same]
  · rw [trap_unknown _ _ _ hv] at h
    injection h with h; subst h
    simp only [trap_out, trap_halt, Function.update_same]

/-- Every outcome of a trap routine, the overrun of a string routine
included, is a machine state in which `R7` is as the routine found it. -/
theorem op_TRAP_outcome (sc : Bool) (t : State) (instr : Nat) :
    ∃ s1, (op_TRAP sc t instr = .ok s1 ∨ op_TRAP sc t instr = .error (Fault.outOfBounds s1)) ∧
      s1.reg R_R7 = t.reg R_PC := by
  have h7 : Function.update t.reg R_R7 (t.reg R_PC) R_R7 = t.reg R_PC :=
    Function.update_same _ _ _
  rcases trap_vector_cases (instr &&& 0xff) with hv | hv | hv | hv | hv | hv | hv
  · exact ⟨_, Or.inl (trap_GETC _ _ _ hv), op_TRAP_r7 sc t _ instr (trap_GETC _ _ _ hv)⟩
  · exact ⟨_, Or.inl (trap_OUT _ _ _ hv), op_TRAP_r7 sc t _ instr (trap_OUT _ _ _ hv)⟩
  · rw [trap_PUTS _ _ _ hv]
    unfold trap_puts
    dsimp only
    cases puts_loop sc (MEMORY_MAX - Function.update t.reg R_R7 (t.reg R_PC) R_R0) t.memory
        (Function.update t.reg R_R7 (t.reg R_PC) R_R0) t.output with
    | ok out => exact ⟨_, Or.inl rfl, h7⟩
    | error out => exact ⟨_, Or.inr rfl, h7⟩
  · exact ⟨_, Or.inl (trap_IN _ _ _ hv), op_TRAP_r7 sc t _ instr (trap_IN _ _ _ hv)⟩
  · rw [trap_PUTSP _ _ _ hv]
    unfold trap_putsp
    dsimp only
    cases putsp_loop sc (MEMORY_MAX - Function.update t.reg R_R7 (t.reg R_PC) R_R0) t.memory
        (Function.update t.reg R_R7 (t.reg R_PC) R_R0) t.output with
    | ok out => exact ⟨_, Or.inl rfl, h7⟩
    | error out => exact ⟨_, Or.inr rfl, h7⟩
  · exact ⟨_, Or.inl (trap_HALT _ _ _ hv), op_TRAP_r7 sc t _ instr (trap_HALT _ _ _ hv)⟩
  · exact ⟨_, Or.inl (trap_unknown _ _ _ hv), op_TRAP_r7 sc t _ instr (trap_unknown _ _ _ hv)⟩

/-- C16: in a well-formed state whose next instruction is a TRAP fetched from
address `a` (which cannot be 0xFE00), whatever its vector: the step does not
abort, and its outcome is a machine state with R7 = (a + 1) mod 2^16, either
the next state of the loop or, for a string routine that walks past the end
of `memory`, the state at that moment.  The step yields a next state for
every vector other than PUTS and PUTSP, and for those two whenever a zero word
lies between address R0 and 0xFFFF.  When the vector (bits 7..0) is not one
of 0x20..0x25 the step yields a next state and changes nothing else:
`running`, standard output, the input, memory, R0..R6 and COND are as before,
and PC = (a + 1) mod 2^16. -/
theorem trap_effect (sc : Bool) (s : State) (instr : Nat) (hwf : WF s)
    (hi : (fetch s).2 = instr) (hop : bitsOf instr 15 12 = OP_TRAP) :
    s.reg R_PC ≠ MR_KBSR ∧
    step sc s ≠ .error Fault.abort ∧
    (∃ s1, (step sc s = .ok s1 ∨ step sc s = .error (Fault.outOfBounds s1)) ∧
      s1.reg R_R7 = (s.reg R_PC + 1) % 65536) ∧
    (((bitsOf instr 7 0 ≠ TRAP_PUTS ∧ bitsOf instr 7 0 ≠ TRAP_PUTSP) ∨
        ∃ z, s.reg R_R0 ≤ z ∧ z ≤ 0xFFFF ∧ s.memory z = 0) →
      ∃ s1, step sc s = .ok s1) ∧
    ((bitsOf instr 7 0 < 0x20 ∨ 0x25 < bitsOf instr 7 0) →
      ∃ s1, step sc s = .ok s1 ∧ s1.running = s.running ∧ s1.output = s.output ∧
        s1.input = s.input ∧ s1.memory = s.memory ∧ (∀ r, r < 7 → s1.reg r = s.reg r) ∧
        s1.reg R_COND = s.reg R_COND ∧ s1.reg R_PC = (s.reg R_PC + 1) % 65536 ∧
        s1.reg R_R7 = (s.reg R_PC + 1) % 65536) := by
  have hlt : instr < 65536 := hi ▸ (fetch_lt s hwf.1).1
  rw [bitsOf_op _ hlt] at hop
  rw [bitsOf_vect]
  have hpcne := pc_ne_of_op s (by rw [hi, hop]; decide) (by rw [hi, hop]; decide)
  have hf := fetch_of_ne s hpcne
  have hstep : step sc s = op_TRAP sc (fetch s).1 instr := by
    rw [step_eq_exec, hi]; exact exec_TRAP _ _ _ hop
  have hr0 : Function.update (Function.update s.reg R_PC ((s.reg R_PC + 1) % 65536)) R_R7
      (Function.update s.reg R_PC ((s.reg R_PC + 1) % 65536) R_PC) R_R0 = s.reg R_R0 := by
    rw [Function.update_noteq (show R_R0 ≠ R_R7 by decide),
      Function.update_noteq (show R_R0 ≠ R_PC by decide)]
  refine ⟨hpcne, ?_, ?_, ?_, ?_⟩
  · rw [hstep]; exact op_TRAP_not_abort _ _ _
  · obtain ⟨s1, ho, h7⟩ := op_TRAP_outcome sc (fetch s).1 instr
    exact ⟨s1, by rw [hstep]; exact ho, by rw [h7, fetch_reg_pc]⟩
  · intro h
    rw [hstep, hf]
    dsimp only
    have hloops : (∃ z, s.reg R_R0 ≤ z ∧ z ≤ 0xFFFF ∧ s.memory z = 0) →
        (∃ o, puts_loop sc (MEMORY_MAX - s.reg R_R0) s.memory (s.reg R_R0) s.output = .ok o) ∧
        (∃ o, putsp_loop sc (MEMORY_MAX - s.reg R_R0) s.memory (s.reg R_R0) s.output = .ok o) := by
      rintro ⟨z, h1, h2, h3⟩
      exact string_loops_end sc s.memory _ _ _
        ⟨z, h1, by show z < s.reg R_R0 + (65536 - s.reg R_R0); omega, h3⟩
    rcases trap_vector_cases (instr &&& 0xff) with hv | hv | hv | hv | hv | hv | hv
    · rw [trap_GETC _ _ _ hv]; exact ⟨_, rfl⟩
    · rw [trap_OUT _ _ _ hv]; exact ⟨_, rfl⟩
    · rcases h with h | h
      · exact absurd hv h.1
      · obtain ⟨o, ho⟩ := (hloops h).1
        rw [trap_PUTS _ _ _ hv]
        unfold trap_puts
        dsimp only
        rw [hr0, ho]
        exact ⟨_, rfl⟩
    · rw [trap_IN _ _ _ hv]; exact ⟨_, rfl⟩
    · rcases h with h | h
      · exact absurd hv h.2
      · obtain ⟨o, ho⟩ := (hloops h).2
        rw [trap_PUTSP _ _ _ hv]
        unfold trap_putsp
        dsimp only
        rw [hr0, ho]
        exact ⟨_, rfl⟩
    · rw [trap_HALT _ _ _ hv]; exact ⟨_, rfl⟩
    · rw [trap_unknown _ _ _ hv]; exact ⟨_, rfl⟩
  · intro hv
    rw [hstep, hf, trap_unknown _ _ _ hv]
    refine ⟨_, rfl, rfl, rfl, rfl, rfl, ?_, ?_, ?_, ?_⟩
    · intro r hr
      dsimp only
      rw [Function.update_noteq (by show r ≠ 7; omega),
        Function.update_noteq (by show r ≠ 8; omega)]
    · dsimp only
      rw [cond_update_r7, cond_update_pc]
    · dsimp only
      rw [Function.update_noteq (show R_PC ≠ R_R7 by decide), Function.update_same]
    · dsimp only
      rw [Function.update_same, Function.update_same]

theorem trap_effect_witness :
    (∃ s1, step true (bootState [0xF0FF] 0x1234 []) = .ok s1 ∧ s1.reg R_R7 = 0x3001 ∧
      s1.reg R_PC = 0x3001 ∧ s1.reg R_R0 = 0x1234 ∧ s1.running = true ∧ s1.output = []) ∧
    (∃ s1, (step true (bootOn (unterminated 0xF022) 0xFFFF [] false) = .ok s1 ∨
        step true (bootOn (unterminated 0xF022) 0xFFFF [] false)
          = .error (Fault.outOfBounds s1)) ∧
      s1.reg R_R7 = 0x3001) := by
  refine ⟨?_, ?_⟩
  · obtain ⟨s1, hs, h1, h2, _, _, h5, _, h7, h8⟩ :=
      (trap_effect true (bootState [0xF0FF] 0x1234 []) 0xF0FF
        (WF_bootState _ _ _ (by decide) (by decide) (by decide)) rfl (by decide)).2.2.2.2
        (Or.inr (by decide))
    exact ⟨s1, hs, h8.trans (by decide), h7.trans (by decide),
      (h5 0 (by decide)).trans (by decide), h1.trans (by decide), h2.trans (by decide)⟩
  · obtain ⟨s1, hs, h7⟩ :=
      (trap_effect true (bootOn (unterminated 0xF022) 0xFFFF [] false) 0xF022
        (WF_bootOn _ _ _ _ (unterminated_lt _ (by decide)) (by decide) (by decide)) rfl
        (by decide)).2.2.1
    exact ⟨s1, hs, h7.trans (by decide)⟩

/-! ## Halting -/


theorem run_halted (sc : Bool) (s : State) (h : s.running = false) (n : Nat) :
    run sc n s = .ok s := by
  cases n with
  | zero => rfl
  | succ n => simp [run, h]

/-- C17: in every state whose next instruction is TRAP HALT (0xF025), the
step succeeds, appends exactly "HALT\n" to standard output and clears
`running`; memory, R0..R6, COND and the input are unchanged.  The loop then
stops: from the state reached no further iteration is made, so a run started
in a running state with at least one iteration allowed ends in that state
after this one instruction. -/
theorem halt_effect (sc : Bool) (s : State) (hi : (fetch s).2 = 0xF025) :
    ∃ s1, step sc s = .ok s1 ∧
      s1.output = s.output ++ bytes "HALT\n" ∧
      s1.running = false ∧
      s1.memory = s.memory ∧
      (∀ r, r < 7 → s1.reg r = s.reg r) ∧
      s1.reg R_COND = s.reg R_COND ∧
      s1.input = s.input ∧
      (∀ n, run sc n s1 = .ok s1) ∧
      (s.running = true → ∀ n, run sc (n + 1) s = .ok s1) := by
  have hpcne := pc_ne_of_op s (by rw [hi]; decide) (by rw [hi]; decide)
  have hf := fetch_of_ne s hpcne
  have hstep : step sc s = .ok (trap_halt
      { (fetch s).1 with reg := Function.update (fetch s).1.reg R_R7 ((fetch s).1.reg R_PC) }) := by
    rw [step_eq_exec, hi, exec_TRAP _ _ _ (by decide), trap_HALT _ _ _ (by decide)]
  refine ⟨_, hstep, ?_, rfl, ?_, ?_, ?_, ?_, run_halted sc _ rfl, ?_⟩
  · rw [hf]; rfl
  · rw [hf]; rfl
  · intro r hr
    rw [hf]
    simp only [trap_halt]
    rw [Function.update_noteq (by show r ≠ 7; omega),
      Function.update_noteq (by show r ≠ 8; omega)]
  · rw [hf]
    simp only [trap_halt]
    rw [cond_update_r7, cond_update_pc]
  · rw [hf]; rfl
  · intro hrun n
    rw [run, if_pos hrun, hstep]
    exact run_halted sc _ rfl n

theorem halt_effect_witness :
    ∃ m, read_image_file (fun _ => 0) [0x30, 0x00, 0xF0, 0x25] = some m ∧
      ∃ s1, run true 1 (bootOn m 0 [] false) = .ok s1 ∧ s1.running = false ∧
        s1.output = bytes "HALT\n" :=
  ⟨_, rfl, by
    obtain ⟨s1, _, ho, hr, _, _, _, _, _, hrun⟩ := halt_effect true
      (bootOn (swap_loop 1 (fread_words 0xD000 (fun _ => 0) 0x3000 [0xF0, 0x25]).1 0x3000)
        0 [] false) (by decide)
    exact ⟨s1, hrun rfl 0, hr, ho.trans (by decide)⟩⟩

/-! ## Algebraic properties -/


/-- C18: for every 16-bit word `w`, `swap16(w)` is `w` with its high and low
bytes exchanged, and `swap16(swap16(w)) = w`. -/
theorem swap16_involutive (w : Nat) (hw : w < 65536) :
    swap16 w = (w % 256) * 256 + w / 256 ∧ swap16 (swap16 w) = w := by
  have h0 : w % 256 < 256 := Nat.mod_lt _ (by decide)
  have h1 : w / 256 < 256 := by omega
  have e1 : swap16 w = (w % 256) * 256 + w / 256 := by
    have hw' : w = w % 256 + 256 * (w / 256) := by omega
    conv => lhs; rw [hw']
    exact swap16_bytes _ _ h0 h1
  refine ⟨e1, ?_⟩
  rw [e1, show w % 256 * 256 + w / 256 = w / 256 + 256 * (w % 256) by omega,
    swap16_bytes _ _ h1 h0]
  omega

theorem swap16_involutive_witness :
    swap16 0x1234 = 0x3412 ∧ swap16 (swap16 0x1234) = 0x1234 := by
  obtain ⟨h1, h2⟩ := swap16_involutive 0x1234 (by decide)
  exact ⟨h1.trans (by decide), h2⟩

/-- C19 (as stated) fails for the index of COND itself: with every register 0,
one call of `update_flags(R_COND)` leaves COND = ZRO, a second call reads that
non-zero COND and leaves COND = POS. -/
theorem update_flags_cond_index_not_idempotent :
    update_flags (fun _ => 0) R_COND R_COND = FL_ZRO ∧
    update_flags (update_flags (fun _ => 0) R_COND) R_COND R_COND = FL_POS ∧
    update_flags (update_flags (fun _ => 0) R_COND) R_COND ≠ update_flags (fun _ => 0) R_COND := by
  refine ⟨by decide, by decide, ?_⟩
  intro h
  have h9 := congrFun h R_COND
  exact absurd h9 (by decide)

/-- C19 (amended): for every register file and every register index `r` other
than that of COND (so for R0..R7, the only indices the emulator passes, and
for PC), calling `update_flags(r)` twice in succession leaves the same
register file, hence the same COND, as calling it once. -/
theorem update_flags_idempotent (reg : Nat → Nat) (r : Nat) (hr : r ≠ R_COND) :
    update_flags (update_flags reg r) r = update_flags reg r ∧
    update_flags (update_flags reg r) r R_COND = update_flags reg r R_COND := by
  have h : update_flags (update_flags reg r) r = update_flags reg r := by
    unfold update_flags
    by_cases h0 : reg r = 0
    · simp only [if_pos h0]
      rw [Function.update_noteq hr, if_pos h0, Function.update_idem]
    · simp only [if_neg h0]
      by_cases h1 : reg r >>> 15 ≠ 0
      · simp only [if_pos h1]
        rw [Function.update_noteq hr, if_neg h0, if_pos h1, Function.update_idem]
      · simp only [if_neg h1]
        rw [Function.update_noteq hr, if_neg h0, if_neg h1, Function.update_idem]
  exact ⟨h, by rw [h]⟩

theorem update_flags_idempotent_witness :
    update_flags (update_flags (fun _ => 0x8000) R_R3) R_R3 = update_flags (fun _ => 0x8000) R_R3 ∧
    update_flags (fun _ => 0x8000) R_R3 R_COND = FL_NEG :=
  ⟨(update_flags_idempotent (fun _ => 0x8000) R_R3 (by decide)).1, by decide⟩

/-! ## The frame of image loading -/


/-- `fread_words` on a payload of `N` complete words: `min N max_read` words
are read, they land at `p, p + 1, ...`, and no other word changes. -/
theorem fread_words_trunc (max_read : Nat) : ∀ (N : Nat) (memory : Nat → Nat) (p : Nat)
    (payload : List Nat), payload.length = 2 * N →
    (fread_words max_read memory p payload).2 = min N max_read ∧
    (∀ i, i < min N max_read → (fread_words max_read memory p payload).1 (p + i)
      = payload.getD (2 * i) 0 + 256 * payload.getD (2 * i + 1) 0) ∧
    (∀ a, a < p ∨ p + min N max_read ≤ a →
      (fread_words max_read memory p payload).1 a = memory a) := by
  induction max_read with
  | zero =>
    intro N memory p payload _
    have h0 : fread_words 0 memory p payload = (memory, 0) := by
      unfold fread_words; rfl
    rw [h0, Nat.min_zero]
    exact ⟨rfl, fun i hi => absurd hi (by omega), fun _ _ => rfl⟩
  | succ m ih =>
    intro N memory p payload hlen
    match payload, hlen with
    | [], hlen =>
      have hN : N = 0 := by simp at hlen; omega
      subst hN
      have h0 : fread_words (m + 1) memory p [] = (memory, 0) := rfl
      rw [h0, Nat.zero_min]
      exact ⟨rfl, fun i hi => absurd hi (by omega), fun _ _ => rfl⟩
    | [_], hlen => simp at hlen; omega
    | b0 :: b1 :: rest, hlen =>
      match N, hlen with
      | 0, hlen => simp at hlen
      | N + 1, hlen =>
        have hrest : rest.length = 2 * N := by simp at hlen; omega
        obtain ⟨hc, hv, hf⟩ := ih N (Function.update memory p (b0 + 256 * b1)) (p + 1) rest hrest
        have he : fread_words (m + 1) memory p (b0 :: b1 :: rest)
            = ((fread_words m (Function.update memory p (b0 + 256 * b1)) (p + 1) rest).1,
               (fread_words m (Function.update memory p (b0 + 256 * b1)) (p + 1) rest).2 + 1) := rfl
        have hmin : min (N + 1) (m + 1) = min N m + 1 := by omega
        rw [he, hmin]
        refine ⟨by simp [hc], ?_, ?_⟩
        · intro i hi
          cases i with
          | zero =>
            show (fread_words m (Function.update memory p (b0 + 256 * b1)) (p + 1) rest).1 p = _
            rw [hf p (Or.inl (by omega)), Function.update_same]
            rfl
          | succ j =>
            dsimp only
            have := hv j (by omega)
            rw [show p + (j + 1) = p + 1 + j by omega, this]
            rw [show 2 * (j + 1) = 2 * j + 2 by omega]
            rfl
        · intro a ha
          dsimp only
          rw [hf a (by omega), Function.update_noteq (by omega)]

/-- C20: for every prior memory, every origin `o = b0 * 256 + b1` and every
payload of `N` words, however long: `read_image_file` stores some number
`stored` of payload words, at most `N` and at most `0x10000 - o`, at the
addresses `o, ..., o + stored - 1`; every word below `o` and every word at or
beyond `o + stored` is unchanged, so every word that changes has an address
in `o .. 0xFFFF`, inside the 65,536-word memory. -/
theorem read_image_file_frame (memory : Nat → Nat) (b0 b1 : Nat) (payload : List Nat) (N : Nat)
    (h0 : b0 < 256) (h1 : b1 < 256) (hp : ∀ b ∈ payload, b < 256)
    (hlen : payload.length = 2 * N) :
    ∃ m stored, read_image_file memory (b0 :: b1 :: payload) = some m ∧
      stored ≤ N ∧ stored ≤ 0x10000 - (b0 * 256 + b1) ∧
      (∀ i, i < stored →
        m (b0 * 256 + b1 + i) = payload.getD (2 * i) 0 * 256 + payload.getD (2 * i + 1) 0) ∧
      (∀ a, a < b0 * 256 + b1 ∨ b0 * 256 + b1 + stored ≤ a → m a = memory a) ∧
      (∀ a, m a ≠ memory a → b0 * 256 + b1 ≤ a ∧ a ≤ 0xFFFF) := by
  obtain ⟨hc, hv, hf⟩ := fread_words_trunc ((MEMORY_MAX - (b0 * 256 + b1)) % 65536) N memory
    (b0 * 256 + b1) payload hlen
  have hcap : min N ((MEMORY_MAX - (b0 * 256 + b1)) % 65536) ≤ 0x10000 - (b0 * 256 + b1) := by
    show min N ((65536 - (b0 * 256 + b1)) % 65536) ≤ 65536 - (b0 * 256 + b1)
    omega
  have hframe : ∀ a, a < b0 * 256 + b1 ∨
      b0 * 256 + b1 + min N ((MEMORY_MAX - (b0 * 256 + b1)) % 65536) ≤ a →
      swap_loop (min N ((MEMORY_MAX - (b0 * 256 + b1)) % 65536))
        (fread_words ((MEMORY_MAX - (b0 * 256 + b1)) % 65536) memory (b0 * 256 + b1) payload).1
        (b0 * 256 + b1) a = memory a := by
    intro a ha
    rw [(swap_loop_spec _ _ _).2 a ha, hf a ha]
  refine ⟨swap_loop (min N ((MEMORY_MAX - (b0 * 256 + b1)) % 65536))
    (fread_words ((MEMORY_MAX - (b0 * 256 + b1)) % 65536) memory (b0 * 256 + b1) payload).1
    (b0 * 256 + b1), min N ((MEMORY_MAX - (b0 * 256 + b1)) % 65536), ?_, Nat.min_le_left _ _,
    hcap, ?_, hframe, ?_⟩
  · unfold read_image_file
    dsimp only
    rw [swap16_bytes b0 b1 h0 h1, hc]
  · intro i hi
    rw [(swap_loop_spec _ _ _).1 i hi, hv i hi]
    have hget : ∀ j, payload.getD j 0 < 256 := by
      intro j
      rw [List.getD_eq_getElem?_getD]
      cases h : payload[j]? with
      | none => simp
      | some v => simp only [Option.getD_some]; exact hp v (List.getElem?_mem h)
    exact swap16_bytes _ _ (hget _) (hget _)
  · intro a hne
    by_contra hcon
    apply hne
    apply hframe
    have hcap' : min N ((MEMORY_MAX - (b0 * 256 + b1)) % 65536) ≤ 65536 - (b0 * 256 + b1) := hcap
    omega

theorem read_image_file_frame_witness :
    ∃ m, read_image_file (fun _ => 0) [0xFF, 0xFF, 0x12, 0x34, 0x56, 0x78] = some m ∧
      m 0xFFFF = 0x1234 ∧ (∀ a, a < 0xFFFF → m a = 0) ∧ (∀ a, 0x10000 ≤ a → m a = 0) := by
  obtain ⟨m, stored, hm, _, hcap, _, hframe, _⟩ := read_image_file_frame (fun _ => 0) 0xFF 0xFF
    [0x12, 0x34, 0x56, 0x78] 2 (by decide) (by decide) (by decide) rfl
  have hev : read_image_file (fun _ => 0) [0xFF, 0xFF, 0x12, 0x34, 0x56, 0x78]
      = some (swap_loop 1 (fread_words 1 (fun _ => 0) 0xFFFF [0x12, 0x34, 0x56, 0x78]).1 0xFFFF) :=
    rfl
  have hval : m 0xFFFF = 0x1234 := by
    rw [hev] at hm; injection hm with hm; subst hm; decide
  have hcap' : stored ≤ 1 := hcap
  exact ⟨m, hm, hval, fun a ha => hframe a (Or.inl ha),
    fun a ha => hframe a (Or.inr (by show 0xFF * 256 + 0xFF + stored ≤ a; omega))⟩

/-! ## Writes to the condition codes -/

theorem getchar_reg (s : State) : (getchar s).1.reg = s.reg := by
  unfold getchar; split <;> rfl

theorem writtenReg_code (instr : Nat) (hlt : instr < 65536) :
    writtenReg instr =
      if instr >>> 12 = OP_ADD ∨ instr >>> 12 = OP_AND ∨ instr >>> 12 = OP_NOT ∨
          instr >>> 12 = OP_LD ∨ instr >>> 12 = OP_LDI ∨ instr >>> 12 = OP_LDR ∨
          instr >>> 12 = OP_LEA then
        some ((instr >>> 9) &&& 7)
      else if instr >>> 12 = OP_TRAP ∧
          (instr &&& 0xff = TRAP_GETC ∨ instr &&& 0xff = TRAP_IN) then
        some R_R0
      else none := by
  unfold writtenReg
  rw [bitsOf_op _ hlt, bitsOf_dr, bitsOf_vect]

/-- Where COND comes from after one instruction.  A word that is not one of
ADD, AND, NOT, LD, LDI, LDR, LEA, TRAP GETC, TRAP IN leaves COND as it was.
For those nine, the register file left by the step is the result of
`update_flags(r)`, `r` the general register the instruction writes, applied to
a register file whose COND is still the one before the step. -/
theorem step_writes_cond (sc : Bool) (s s1 : State) (h : step sc s = .ok s1) :
    (writtenReg (fetch s).2 = none → s1.reg R_COND = s.reg R_COND) ∧
    (∀ r, writtenReg (fetch s).2 = some r →
      r < 8 ∧ ∃ regs, regs R_COND = s.reg R_COND ∧ s1.reg = update_flags regs r) := by
  have hc : (fetch s).1.reg R_COND = s.reg R_COND := fetch_reg_of_ne s _ (by decide)
  have hstep : exec sc (fetch s).1 (fetch s).2 = .ok s1 := h
  generalize (fetch s).2 = instr at *
  generalize (fetch s).1 = t at *
  rw [← hc]
  have h9 : instr >>> 9 &&& 7 < 8 := field_lt_8 _
  have hne9 : instr >>> 9 &&& 7 ≠ R_COND := by show _ ≠ 9; omega
  have hlt16 : instr >>> 12 < 16 → instr < 65536 := by
    rw [Nat.shiftRight_eq_div_pow]; norm_num; omega
  -- the register-writing instructions
  have hwr : ∀ v : Nat,
      (instr >>> 12 = OP_ADD ∨ instr >>> 12 = OP_AND ∨ instr >>> 12 = OP_NOT ∨
        instr >>> 12 = OP_LD ∨ instr >>> 12 = OP_LDI ∨ instr >>> 12 = OP_LDR ∨
        instr >>> 12 = OP_LEA) →
      ∀ regs0 : Nat → Nat, regs0 R_COND = t.reg R_COND →
      (writtenReg instr = none →
        update_flags (Function.update regs0 (instr >>> 9 &&& 7) v) (instr >>> 9 &&& 7) R_COND
          = t.reg R_COND) ∧
      (∀ r, writtenReg instr = some r →
        r < 8 ∧ ∃ regs, regs R_COND = t.reg R_COND ∧
          update_flags (Function.update regs0 (instr >>> 9 &&& 7) v) (instr >>> 9 &&& 7)
            = update_flags regs r) := by
    intro v hop regs0 h0
    have hlt : instr < 65536 := hlt16 (by rcases hop with h | h | h | h | h | h | h <;> rw [h] <;> decide)
    rw [writtenReg_code _ hlt, if_pos hop]
    refine ⟨fun hn => absurd hn (by simp), ?_⟩
    intro r hr
    injection hr with hr
    subst hr
    exact ⟨h9, _, by rw [Function.update_noteq hne9.symm, h0], rfl⟩
  -- the instructions that write no general register
  have hno : (instr >>> 12 = OP_BR ∨ instr >>> 12 = OP_JMP ∨ instr >>> 12 = OP_JSR ∨
        instr >>> 12 = OP_ST ∨ instr >>> 12 = OP_STI ∨ instr >>> 12 = OP_STR) →
      writtenReg instr = none := by
    intro hop
    have hlt : instr < 65536 := hlt16 (by rcases hop with h | h | h | h | h | h <;> rw [h] <;> decide)
    rw [writtenReg_code _ hlt]
    rcases hop with h | h | h | h | h | h <;> rw [h] <;> rfl
  have hnone : ∀ u : State, writtenReg instr = none → u.reg R_COND = t.reg R_COND →
      (writtenReg instr = none → u.reg R_COND = t.reg R_COND) ∧
      (∀ r, writtenReg instr = some r →
        r < 8 ∧ ∃ regs, regs R_COND = t.reg R_COND ∧ u.reg = update_flags regs r) := by
    intro u hw hu
    refine ⟨fun _ => hu, ?_⟩
    intro r hr
    rw [hw] at hr
    exact absurd hr (by simp)
  rcases exec_cases sc t instr with ⟨ho, he⟩ | ⟨ho, he⟩ | ⟨ho, he⟩ | ⟨ho, he⟩ | ⟨ho, he⟩ |
    ⟨ho, he⟩ | ⟨ho, he⟩ | ⟨ho, he⟩ | ⟨ho, he⟩ | ⟨ho, he⟩ | ⟨ho, he⟩ | ⟨ho, he⟩ | ⟨ho, he⟩ |
    ⟨ho, he⟩ | ⟨ho, he⟩ <;> rw [he] at hstep
  · injection hstep with hstep; subst hstep; unfold op_ADD; dsimp only
    split <;> exact hwr _ (by simp [ho]) _ rfl
  · injection hstep with hstep; subst hstep; unfold op_AND; dsimp only
    split <;> exact hwr _ (by simp [ho]) _ rfl
  · injection hstep with hstep; subst hstep
    exact hwr _ (by simp [ho]) _ rfl
  · injection hstep with hstep; subst hstep
    refine hnone _ (hno (by simp [ho])) ?_
    unfold op_BR; dsimp only
    split
    · simp only [cond_update_pc]
    · rfl
  · injection hstep with hstep; subst hstep
    refine hnone _ (hno (by simp [ho])) ?_
    simp only [op_JMP, cond_update_pc]
  · injection hstep with hstep; subst hstep
    refine hnone _ (hno (by simp [ho])) ?_
    unfold op_JSR; dsimp only
    split <;> simp only [cond_update_pc, cond_update_r7]
  · injection hstep with hstep; subst hstep
    exact hwr _ (by simp [ho]) _ (by rw [mem_read_reg])
  · injection hstep with hstep; subst hstep
    exact hwr _ (by simp [ho]) _ (by rw [mem_read_reg, mem_read_reg])
  · injection hstep with hstep; subst hstep
    exact hwr _ (by simp [ho]) _ (by rw [mem_read_reg])
  · injection hstep with hstep; subst hstep
    exact hwr _ (by simp [ho]) _ rfl
  · injection hstep with hstep; subst hstep
    exact hnone _ (hno (by simp [ho])) rfl
  · injection hstep with hstep; subst hstep
    refine hnone _ (hno (by simp [ho])) ?_
    show (mem_read t _).1.reg R_COND = _
    rw [mem_read_reg]
  · injection hstep with hstep; subst hstep
    exact hnone _ (hno (by simp [ho])) rfl
  · have hlt : instr < 65536 := hlt16 (by rw [ho]; decide)
    have hw : writtenReg instr =
        if instr &&& 0xff = TRAP_GETC ∨ instr &&& 0xff = TRAP_IN then some R_R0 else none := by
      rw [writtenReg_code _ hlt, ho]
      simp
    have hin : ∀ v : Nat, ∀ regs0 : Nat → Nat, regs0 R_COND = t.reg R_COND →
        (instr &&& 0xff = TRAP_GETC ∨ instr &&& 0xff = TRAP_IN) →
        (writtenReg instr = none →
          update_flags (Function.update regs0 R_R0 v) R_R0 R_COND = t.reg R_COND) ∧
        (∀ r, writtenReg instr = some r →
          r < 8 ∧ ∃ regs, regs R_COND = t.reg R_COND ∧
            update_flags (Function.update regs0 R_R0 v) R_R0 = update_flags regs r) := by
      intro v regs0 h0 hv
      rw [hw, if_pos hv]
      refine ⟨fun hn => absurd hn (by simp), ?_⟩
      intro r hr
      injection hr with hr
      subst hr
      exact ⟨by decide, _, by rw [Function.update_noteq (show R_COND ≠ R_R0 by decide), h0],
        rfl⟩
    have hs0 : Function.update t.reg R_R7 (t.reg R_PC) R_COND = t.reg R_COND :=
      cond_update_r7 _ _
    have hnv : (instr &&& 0xff ≠ TRAP_GETC ∧ instr &&& 0xff ≠ TRAP_IN) →
        writtenReg instr = none := by
      intro hv
      rw [hw, if_neg (by intro h; rcases h with h | h; exact hv.1 h; exact hv.2 h)]
    rcases trap_vector_cases (instr &&& 0xff) with hv | hv | hv | hv | hv | hv | hv
    · rw [trap_GETC _ _ _ hv] at hstep
      injection hstep with hstep; subst hstep
      unfold trap_getc
      dsimp only
      exact hin _ _ (by rw [getchar_reg]; exact hs0) (Or.inl hv)
    · rw [trap_OUT _ _ _ hv] at hstep
      injection hstep with hstep; subst hstep
      exact hnone _ (hnv (by rw [hv]; decide)) hs0
    · rw [trap_PUTS _ _ _ hv] at hstep
      unfold trap_puts at hstep
      split at hstep
      · injection hstep with hstep; subst hstep
        exact hnone _ (hnv (by rw [hv]; decide)) hs0
      · exact absurd hstep (by simp)
    · rw [trap_IN _ _ _ hv] at hstep
      injection hstep with hstep; subst hstep
      unfold trap_in
      dsimp only
      exact hin _ _ (by rw [getchar_reg]; exact hs0) (Or.inr hv)
    · rw [trap_PUTSP _ _ _ hv] at hstep
      unfold trap_putsp at hstep
      split at hstep
      · injection hstep with hstep; subst hstep
        exact hnone _ (hnv (by rw [hv]; decide)) hs0
      · exact absurd hstep (by simp)
    · rw [trap_HALT _ _ _ hv] at hstep
      injection hstep with hstep; subst hstep
      exact hnone _ (hnv (by rw [hv]; decide)) hs0
    · rw [trap_unknown _ _ _ hv] at hstep
      injection hstep with hstep; subst hstep
      refine hnone _ (hnv ?_) hs0
      have h1 : TRAP_GETC = 0x20 := rfl
      have h2 : TRAP_IN = 0x23 := rfl
      constructor <;> omega
  · exact absurd hstep (by simp)

/-- C2: in every state reached from the start-up state (COND = ZRO,
PC = 0x3000, any memory, registers and input) by iterations of the loop that
do not abort, COND is one of POS (1), ZRO (2), NEG (4).  And COND is written
only through `update_flags`: an instruction executed there that is not one of
ADD, AND, NOT, LD, LDI, LDR, LEA, TRAP GETC, TRAP IN leaves COND as it was; for
those nine the register file after the step is the result of
`update_flags(r)`, `r` the general register the instruction writes, applied to
a register file in which COND still has its value from before the step. -/
theorem cond_invariant (sc : Bool) (s0 s : State) (h : Reach sc (startup s0) s) :
    (s.reg R_COND = FL_POS ∨ s.reg R_COND = FL_ZRO ∨ s.reg R_COND = FL_NEG) ∧
    (∀ s1, step sc s = .ok s1 →
      (writtenReg (fetch s).2 = none → s1.reg R_COND = s.reg R_COND) ∧
      (∀ r, writtenReg (fetch s).2 = some r →
        r < 8 ∧ ∃ regs, regs R_COND = s.reg R_COND ∧ s1.reg = update_flags regs r)) := by
  refine ⟨?_, fun s1 h1 => step_writes_cond sc s s1 h1⟩
  generalize hs : startup s0 = i at h
  induction h with
  | refl => subst hs; right; left; rfl
  | tail t u _ _ hstep ih =>
    rcases step_cond sc t u hstep with hc | ⟨regs, r, hc⟩
    · rw [hc]; exact ih
    · rw [hc]; exact update_flags_range regs r

theorem cond_invariant_witness :
    Reach true (bootState [0x1025, 0xF025] 0 [])
        (op_ADD (fetch (bootState [0x1025, 0xF025] 0 [])).1 0x1025) ∧
      ((op_ADD (fetch (bootState [0x1025, 0xF025] 0 [])).1 0x1025).reg R_COND = FL_POS ∨
        (op_ADD (fetch (bootState [0x1025, 0xF025] 0 [])).1 0x1025).reg R_COND = FL_ZRO ∨
        (op_ADD (fetch (bootState [0x1025, 0xF025] 0 [])).1 0x1025).reg R_COND = FL_NEG) :=
  ⟨Reach.tail _ _ _ (Reach.refl _) rfl rfl,
    (cond_invariant true
      { memory := image [0x1025, 0xF025], reg := fun _ => 0, running := false, input := [],
        keys := fun _ => false, output := [] }
      (op_ADD (fetch (bootState [0x1025, 0xF025] 0 [])).1 0x1025)
      (Reach.tail _ _ _ (Reach.refl _) rfl rfl)).1⟩

end TinyVM
